import Mathlib

/-!
# chassis: the command dispatch core

A shallow embedding of the Go package `chassis` (commands.go, builder.go,
errors.go, utils.go, shutdown.go) together with theorems about it.

Conventions of the embedding.

* Go strings are Lean strings; the string functions of the Go standard
  library that the code calls are written out over the characters.
* A Go value that may be absent where the code or its tests make absence a
  case is an `Option`: a nil handler, a nil map, a map miss, the optional
  guild identifier of an event, the two `error` fields of `Error` (the test
  of `Presentable` builds an `Error` without an internal error).  A call
  through an absent value is a run-time panic; functions that can panic
  return `Option`, with `none` for the panic.
* Tree nodes and the target of a handler reference are values: the walker
  compares them with `cmp.Equal`, that is by content.  `findCommandPaths`
  and `AttachHandlers` are given twice: first for references whose pointer
  is set and comparisons that return (`walk`, `cmpEqual`), then with the
  two panics of the loop, the dereference of a nil `Command` pointer and
  `cmp.Equal` reaching an unexported field (`walkRun`, `cmpEqualPanics`);
  the two agree where nothing panics (`findCommandPathsRun_safe`).
* The generic parameters `C Command` and `M Message` range over the two
  types of their constraint; a type switch on them is a `match`.
* The types of the disgo library are given by the fields the code reads; a
  declaration carries its name, its options and a description, which stands
  for the rest of the content `cmp.Equal` compares (the other exported
  fields, and whether a slice without elements is nil or empty).
* A handler is a function from its three arguments to the message and the
  error it returns.  A run of the dispatcher is recorded as the handler
  calls it makes, the calls of the delivery sinks and the error-level log
  lines in order, and whether it ended in a panic.
-/

namespace Chassis

set_option linter.dupNamespace false

/-! ## Pieces of the Go standard library -/

/-- Go `strings.Join(elems, sep)`. -/
def stringsJoin : List String → String → String
  | [], _ => ""
  | [a], _ => a
  | a :: b :: rest, sep => a ++ sep ++ stringsJoin (b :: rest) sep

/-- Go `slices.IndexFunc(s, f)`: the first index whose element satisfies `f`;
`none` stands for the result `-1`. -/
def slicesIndexFunc {α : Type} (s : List α) (f : α → Bool) : Option Nat :=
  match s with
  | [] => none
  | x :: xs => if f x then some 0 else (slicesIndexFunc xs f).map (· + 1)

/-! ## Command declarations (disgo) -/

/-- A value option of a command (`discord.ApplicationCommandOptionString`,
`...Int`, `...Bool`, ...): `Kind` tells the Go type. -/
structure ApplicationCommandOptionValue where
  Kind : Nat
  Name : String
  Description : String
deriving DecidableEq, Repr

/-- The type `discord.ApplicationCommandOptionSubCommand`. -/
structure ApplicationCommandOptionSubCommand where
  Name : String
  Description : String
  Options : List ApplicationCommandOptionValue
deriving DecidableEq, Repr

/-- The type `discord.ApplicationCommandOptionSubCommandGroup`. -/
structure ApplicationCommandOptionSubCommandGroup where
  Name : String
  Description : String
  Options : List ApplicationCommandOptionSubCommand
deriving DecidableEq, Repr

/-- The interface `discord.ApplicationCommandOption`: what may stand in the
`Options` of a slash command. -/
inductive ApplicationCommandOption where
  | SubCommand (c : ApplicationCommandOptionSubCommand)
  | SubCommandGroup (g : ApplicationCommandOptionSubCommandGroup)
  | Value (v : ApplicationCommandOptionValue)
deriving DecidableEq, Repr

/-- The method `OptionName()` of `discord.ApplicationCommandOption`. -/
def ApplicationCommandOption.OptionName : ApplicationCommandOption → String
  | .SubCommand c => c.Name
  | .SubCommandGroup g => g.Name
  | .Value v => v.Name

/-- The type `discord.SlashCommandCreate`.  `DefaultMemberPermissions` is a
pointer (`none`: nil) to a `json.Nullable[Permissions]`, a struct whose
fields are unexported; the number stands for its content. -/
structure SlashCommandCreate where
  Name : String
  Description : String
  Options : List ApplicationCommandOption
  DefaultMemberPermissions : Option Nat := none
deriving DecidableEq, Repr

/-- The interface `discord.ApplicationCommandCreate`: a top-level command
declaration. -/
inductive ApplicationCommandCreate where
  | Slash (c : SlashCommandCreate)
  | User (Name : String)
  | Message (Name : String)
deriving DecidableEq, Repr

/-- The method `CommandName()` of `discord.ApplicationCommandCreate`. -/
def ApplicationCommandCreate.CommandName : ApplicationCommandCreate → String
  | .Slash c => c.Name
  | .User n => n
  | .Message n => n

/-! ## Options of a received interaction (disgo)

`discord.SlashCommandOptionSubCommandGroup` and
`discord.SlashCommandOptionSubCommand` are the types disgo decodes the
options of a *received* slash command into.  They are not declaration types:
they do not implement `discord.ApplicationCommandOption`, so no element of
`SlashCommandCreate.Options` has one of them as its dynamic type. -/

/-- The type `discord.SlashCommandOptionSubCommand`. -/
structure SlashCommandOptionSubCommand where
  Name : String
deriving DecidableEq, Repr

/-- The type `discord.SlashCommandOptionSubCommandGroup`. -/
structure SlashCommandOptionSubCommandGroup where
  Name : String
  Options : List SlashCommandOptionSubCommand
deriving DecidableEq, Repr

/-! ## The walker (commands.go) -/

/-- The dynamic values of the field `item any` of a stack entry, one
constructor for each Go type. -/
inductive Item where
  | SlashCommandCreate (c : SlashCommandCreate)
  | UserCommandCreate (Name : String)
  | MessageCommandCreate (Name : String)
  | ApplicationCommandOptionSubCommand (c : ApplicationCommandOptionSubCommand)
  | ApplicationCommandOptionSubCommandGroup (g : ApplicationCommandOptionSubCommandGroup)
  | ApplicationCommandOptionValue (v : ApplicationCommandOptionValue)
  | SlashCommandOptionSubCommandGroup (g : SlashCommandOptionSubCommandGroup)
  | SlashCommandOptionSubCommand (c : SlashCommandOptionSubCommand)
deriving DecidableEq, Repr

/-- A top-level declaration stored in an `any`. -/
def ApplicationCommandCreate.toItem : ApplicationCommandCreate → Item
  | .Slash c => .SlashCommandCreate c
  | .User n => .UserCommandCreate n
  | .Message n => .MessageCommandCreate n

/-- An option of a slash command stored in an `any`. -/
def ApplicationCommandOption.toItem : ApplicationCommandOption → Item
  | .SubCommand c => .ApplicationCommandOptionSubCommand c
  | .SubCommandGroup g => .ApplicationCommandOptionSubCommandGroup g
  | .Value v => .ApplicationCommandOptionValue v

/-- The constraint `Message`: `discord.MessageCreate | discord.MessageUpdate`. -/
inductive Message where
  | MessageCreate
  | MessageUpdate
deriving DecidableEq, Repr

/-- The constraint `Command`:
`discord.SlashCommandCreate | discord.ApplicationCommandOptionSubCommand`. -/
inductive Command where
  | SlashCommandCreate
  | ApplicationCommandOptionSubCommand
deriving DecidableEq, Repr

/-- The Go type a `Command` type argument stands for. -/
def Command.Value : Command → Type
  | .SlashCommandCreate => Chassis.SlashCommandCreate
  | .ApplicationCommandOptionSubCommand => Chassis.ApplicationCommandOptionSubCommand

/-- A value of a `Command` type stored in an `any`. -/
def Command.toItem : (C : Command) → C.Value → Item
  | .SlashCommandCreate, c => .SlashCommandCreate c
  | .ApplicationCommandOptionSubCommand, c => .ApplicationCommandOptionSubCommand c

/-- Go-cmp `cmp.Equal(x, y)` with `x` of a `Command` type and `y` an `any`,
where it returns: equal dynamic types and equal contents.  The inputs on
which the call panics instead are those of `cmpEqualPanics`. -/
def cmpEqual (C : Command) (x : C.Value) (y : Item) : Bool :=
  decide (C.toItem x = y)

/-- The type `stackEntry`. -/
structure stackEntry where
  item : Item
  pathSteps : List String
deriving DecidableEq, Repr

/-- The method `stackEntry.path`. -/
def stackEntry.path (s : stackEntry) : String :=
  "/" ++ stringsJoin s.pathSteps "/"

/-- The type `SlashCommandHandlerRef[C, M]`, over the type `H` of its handler
(`CommandHandler[M]`), for a reference whose pointer is set: `Command` holds
the value the pointer of the Go struct points to.  `PointerRef` is the
reference with its pointer, which may be nil. -/
structure SlashCommandHandlerRef (C : Command) (H : Type) where
  Command : C.Value
  Handler : H

/-- The type switch at the end of the loop body of `findCommandPaths`: the
entries it pushes, in the order it pushes them.  Its cases are
`discord.SlashCommandCreate` and `discord.SlashCommandOptionSubCommandGroup`;
an item of any other type, a declared sub-command group
(`discord.ApplicationCommandOptionSubCommandGroup`) among them, pushes
nothing. -/
def pushChildren (entry : stackEntry) : List stackEntry :=
  match entry.item with
  | .SlashCommandCreate command =>
    command.Options.map fun opt =>
      { item := opt.toItem, pathSteps := entry.pathSteps ++ [opt.OptionName] }
  | .SlashCommandOptionSubCommandGroup command =>
    command.Options.map fun opt =>
      { item := .SlashCommandOptionSubCommand opt, pathSteps := entry.pathSteps ++ [opt.Name] }
  | _ => []

/-- The pair one iteration of the loop yields for the popped entry, if any:
`slices.IndexFunc` over the references, then `refs[i].Handler`. -/
def yielded {C : Command} {H : Type} (refs : List (SlashCommandHandlerRef C H))
    (entry : stackEntry) : List (String × H) :=
  match slicesIndexFunc refs (fun r => cmpEqual C r.Command entry.item) with
  | some i =>
    match refs[i]? with
    | some r => [(entry.path, r.Handler)]
    | none => []
  | none => []

/-- The loop `for len(stack) > 0` of `findCommandPaths`, run for at most
`fuel` iterations against a consumer that never stops the sequence: the
pairs yielded, in order, or `none` when the fuel ends before the stack does.
The stack is a Go slice: its top is its last element. -/
def walk {C : Command} {H : Type} (refs : List (SlashCommandHandlerRef C H)) :
    Nat → List stackEntry → Option (List (String × H))
  | 0, stack => if stack = [] then some [] else none
  | fuel + 1, stack =>
    match stack.getLast? with
    | none => some []
    | some entry =>
      (walk refs fuel (stack.dropLast ++ pushChildren entry)).map
        (yielded refs entry ++ ·)

/-- The number of iterations an entry accounts for: itself and the entries it
pushes. -/
def stackEntry.weight (entry : stackEntry) : Nat :=
  1 + (pushChildren entry).length

/-- The number of iterations the loop makes from a stack. -/
def stackWeight (stack : List stackEntry) : Nat :=
  (stack.map stackEntry.weight).sum

/-- The stack `findCommandPaths` builds before it returns the sequence. -/
def initialStack (commands : List ApplicationCommandCreate) : List stackEntry :=
  commands.map fun command =>
    { item := command.toItem, pathSteps := [command.CommandName] }

/-- The function `findCommandPaths`: the sequence of pairs, as the list a
consumer that never stops receives. -/
def findCommandPaths {C : Command} {H : Type} (commands : List ApplicationCommandCreate)
    (refs : List (SlashCommandHandlerRef C H)) : List (String × H) :=
  let stack := initialStack commands
  (walk refs (stackWeight stack) stack).getD []

/-! ## Errors (errors.go and the Go package errors) -/

/-- Go error values: the shapes the standard library builds, and the bot's
own `Error`.  `new` is any error without `Unwrap`, `Is` or `As` (as from
`errors.New`), with its text; `wrap` is `fmt.Errorf` with one `%w`, whose
text is fixed when it is built; `join` is `errors.Join`; `bot` is a value of
the struct `Error` with its two fields. -/
inductive GoError where
  | new (text : String)
  | deadlineExceeded
  | wrap (text : String) (inner : GoError)
  | join (errs : List GoError)
  | bot (Display : Option GoError) (Internal : Option GoError)

/-- The struct `Error`: a union of two errors, either of which may be nil. -/
structure Error where
  Display : Option GoError
  Internal : Option GoError

/-- An `Error` as an `error` value. -/
def Error.toGoError (e : Chassis.Error) : GoError :=
  .bot e.Display e.Internal

mutual
/-- The method `Error()` of an error value; `none` is the panic of a call
through a nil interface.  For `bot` it is the method `Error.Error`:
`e.Internal.Error()`. -/
def GoError.Error : GoError → Option String
  | .new text => some text
  | .deadlineExceeded => some "context deadline exceeded"
  | .wrap text _ => some text
  | .join errs => (GoError.ErrorAll errs).map fun texts => stringsJoin texts "\n"
  | .bot _ (some i) => GoError.Error i
  | .bot _ none => none
/-- The texts of a list of errors, as `joinError.Error` collects them. -/
def GoError.ErrorAll : List GoError → Option (List String)
  | [] => some []
  | e :: es =>
    match GoError.Error e, GoError.ErrorAll es with
    | some text, some texts => some (text :: texts)
    | _, _ => none
end

/-- The method `Error.Error`. -/
def Error.Error (e : Chassis.Error) : Option String :=
  match e.Internal with
  | some i => i.Error
  | none => none

mutual
/-- Go `errors.Is(err, context.DeadlineExceeded)`: `err` is the target, or
its `Unwrap` chain reaches it.  `Error` has no `Unwrap` method. -/
def errorsIsDeadlineExceeded : GoError → Bool
  | .new _ => false
  | .deadlineExceeded => true
  | .wrap _ inner => errorsIsDeadlineExceeded inner
  | .join errs => errorsIsDeadlineExceededAny errs
  | .bot _ _ => false
/-- The loop of `errors.Is` over the result of `Unwrap() []error`. -/
def errorsIsDeadlineExceededAny : List GoError → Bool
  | [] => false
  | e :: es => errorsIsDeadlineExceeded e || errorsIsDeadlineExceededAny es
end

mutual
/-- Go `errors.As(err, &botError)` with `botError` of type `Error`: the
first error of the `Unwrap` tree, depth first, that is an `Error`. -/
def errorsAsError : GoError → Option Error
  | .new _ => none
  | .deadlineExceeded => none
  | .wrap _ inner => errorsAsError inner
  | .join errs => errorsAsErrorFirst errs
  | .bot d i => some { Display := d, Internal := i }
/-- The loop of `errors.As` over the result of `Unwrap() []error`. -/
def errorsAsErrorFirst : List GoError → Option Error
  | [] => none
  | e :: es =>
    match errorsAsError e with
    | some b => some b
    | none => errorsAsErrorFirst es
end

/-- The character class `[A-z]` of `multiLineErrorMatch`. -/
def classAz (c : Char) : Bool :=
  decide (65 ≤ c.toNat ∧ c.toNat ≤ 122)

/-- The character class `\w` of Go regular expressions: `[0-9A-Za-z_]`. -/
def classWord (c : Char) : Bool :=
  c.isAlphanum || c = '_'

/-- The function literal `Presentable` passes to `ReplaceAllStringFunc`, on
the characters of a match.  `unicode.IsLower` and `unicode.ToUpper` are
`Char.isLower` and `Char.toUpper`: the pattern matches ASCII characters
only. -/
def presentableReplace : List Char → List Char
  | [] => []
  | r :: s =>
    (if r.isLower then [r.toUpper]
     else if r = '\n' then ['.', r]
     else []) ++ presentableReplace s

/-- The matches of the alternative `\n\w` of `multiLineErrorMatch`, replaced
from left to right. -/
def replaceNewlineWord (repl : List Char → List Char) : List Char → List Char
  | [] => []
  | [c] => [c]
  | c :: d :: rest =>
    if c = '\n' && classWord d then repl [c, d] ++ replaceNewlineWord repl rest
    else c :: replaceNewlineWord repl (d :: rest)

/-- The call `multiLineErrorMatch.ReplaceAllStringFunc(src, repl)` for the
pattern `^[A-z]|\n\w`: the leftmost matches, which do not overlap, each
replaced by `repl` of its text. -/
def multiLineErrorMatchReplaceAll (src : List Char) (repl : List Char → List Char) :
    List Char :=
  match src with
  | [] => []
  | c :: rest =>
    if classAz c then repl [c] ++ replaceNewlineWord repl rest
    else replaceNewlineWord repl (c :: rest)

/-- The method `Error.Presentable`; `none` is the panic of `e.Display.Error()`
on a nil display error. -/
def Error.Presentable (e : Chassis.Error) : Option String :=
  match e.Display with
  | none => none
  | some d =>
    (GoError.Error d).map fun text =>
      String.mk (multiLineErrorMatchReplaceAll text.data presentableReplace) ++ "."

/-! ## Messages (disgo) -/

/-- The type `discord.Embed`, with the fields the code sets. -/
structure Embed where
  Title : String
  Description : String
deriving DecidableEq, Repr

/-- The type `discord.MessageCreate`, with the fields the code sets. -/
structure MessageCreate where
  Content : String
  Embeds : List Embed
deriving DecidableEq, Repr

/-- The type `discord.MessageUpdate`, with the fields the code sets; its
fields are pointers. -/
structure MessageUpdate where
  Content : Option String
  Embeds : Option (List Embed)
deriving DecidableEq, Repr

/-- The Go type a `Message` type argument stands for. -/
def Message.Payload : Message → Type
  | .MessageCreate => Chassis.MessageCreate
  | .MessageUpdate => Chassis.MessageUpdate

/-- The embed `createError` builds around the text of the error. -/
def errorEmbed (value : String) : Embed :=
  { Title := ":x: Something went wrong :x:", Description := value }

/-- The function `createError[M]`; `none` is a panic while the text of the
error is computed. -/
def createError (M : Message) (err : GoError) : Option M.Payload :=
  let value : Option String :=
    match errorsAsError err with
    | some botError => botError.Presentable
    | none => err.Error
  match M with
  | .MessageCreate =>
    value.map fun v => ({ Content := "", Embeds := [errorEmbed v] } : Chassis.MessageCreate)
  | .MessageUpdate =>
    value.map fun v => ({ Content := none, Embeds := some [errorEmbed v] } : Chassis.MessageUpdate)

/-! ## Handlers and their execution (commands.go) -/

/-- Go `context.Context`, as far as the code builds it: `WithTimeout` is
`context.WithTimeout(parent, timeout)`, the timeout in nanoseconds as in
`time.Duration`. -/
inductive Context where
  | Background
  | WithTimeout (parent : Context) (timeout : Nat)
deriving DecidableEq, Repr

/-- Go `time.Second`, in nanoseconds. -/
def Second : Nat := 1000000000

/-- Go `time.Minute`, in nanoseconds. -/
def Minute : Nat := 60 * Second

/-- An attribute of a structured logger: `slog.String` and `slog.Any` of an
identifier. -/
inductive LogAttr where
  | String (key : String) (value : String)
  | ID (key : String) (value : Nat)
deriving DecidableEq, Repr

/-- A `*slog.Logger`: the attributes it was built `With`. -/
abbrev Logger := List LogAttr

/-- The type `events.ApplicationCommandInteractionCreate`, as far as the code
reads it: the command path and the optional guild identifier of its slash
command data, the application identifier, the token, and what the two
delivery operations answer (`none`: no error). -/
structure ApplicationCommandInteractionCreate where
  CommandPath : String
  GuildID : Option Nat
  ApplicationID : Nat
  Token : String
  CreateMessage : MessageCreate → Option GoError
  UpdateInteractionResponse : Nat → String → MessageUpdate → Option GoError

/-- A non-nil value of the type `CommandHandler[M]`: the message and the
error it returns. -/
def HandlerFunc (M : Message) : Type :=
  Context → ApplicationCommandInteractionCreate → Logger → M.Payload × Option GoError

/-- The type `CommandHandler[M]`; `none` is the nil function. -/
def CommandHandler (M : Message) : Type :=
  Option (HandlerFunc M)

/-- What the dispatcher does to the outside. -/
inductive Effect where
  | CreateMessage (m : MessageCreate)
  | UpdateInteractionResponse (applicationID : Nat) (token : String) (m : MessageUpdate)
  | LogError (msg : String)
deriving DecidableEq, Repr

/-- A call of a handler function. -/
structure HandlerCall where
  M : Message
  handler : HandlerFunc M
  ctx : Context
  logger : Logger

/-- The record of a run: the handler calls made, the effects in order, and
whether the run ended in a panic. -/
structure Run where
  calls : List HandlerCall
  effects : List Effect
  panicked : Bool

/-- The final type switch of `executeHandler`: the message goes to the sink
of its type, and an error of the sink is logged. -/
def deliver (M : Message) (event : ApplicationCommandInteractionCreate)
    (message : M.Payload) : List Effect :=
  match M, message with
  | .MessageCreate, m =>
    Effect.CreateMessage m ::
      (match event.CreateMessage m with
       | some _ => [Effect.LogError "Create message failed"]
       | none => [])
  | .MessageUpdate, m =>
    Effect.UpdateInteractionResponse event.ApplicationID event.Token m ::
      (match event.UpdateInteractionResponse event.ApplicationID event.Token m with
       | some _ => [Effect.LogError "Update interaction failed"]
       | none => [])

/-- The function `executeHandler[M]`. -/
def executeHandler (M : Message) (ctx : Context) (handler : HandlerFunc M)
    (event : ApplicationCommandInteractionCreate) (logger : Logger) : Run :=
  let call : HandlerCall := { M := M, handler := handler, ctx := ctx, logger := logger }
  match handler ctx event logger with
  | (message, none) =>
    { calls := [call], effects := deliver M event message, panicked := false }
  | (_, some err) =>
    if errorsIsDeadlineExceeded err then
      { calls := [call],
        effects := [Effect.LogError "Timeout exceeded while processing command"],
        panicked := false }
    else
      match createError M err with
      | some message =>
        { calls := [call], effects := deliver M event message, panicked := false }
      | none => { calls := [call], effects := [], panicked := true }

/-! ## Small utilities (utils.go) -/

/-- Go `strings.TrimLeft(s, cutset)`. -/
def stringsTrimLeft (s cutset : String) : String :=
  String.mk (s.data.dropWhile fun c => cutset.data.contains c)

/-- The pieces of a character list between the occurrences of `sep`. -/
def splitChars (sep : Char) : List Char → List (List Char)
  | [] => [[]]
  | c :: cs =>
    if c = sep then [] :: splitChars sep cs
    else
      match splitChars sep cs with
      | [] => [[c]]
      | piece :: pieces => (c :: piece) :: pieces

/-- Go `strings.Split(s, sep)` for a separator of one character. -/
def stringsSplit (s : String) (sep : Char) : List String :=
  (splitChars sep s.data).map String.mk

/-- The function `or`: the first non-nil handler, nil when there is none. -/
def or {M : Message} : List (CommandHandler M) → CommandHandler M
  | [] => none
  | fn :: fns =>
    match fn with
    | some h => some h
    | none => or fns

/-- The function `commandNotFound` (its warning is left to the logger). -/
def commandNotFound : HandlerFunc .MessageCreate :=
  fun _ctx event _logger =>
    (({ Content := "Unknown or unimplmented command: `/" ++
          stringsJoin (stringsSplit (stringsTrimLeft event.CommandPath "/") '/') " " ++ "`.",
        Embeds := [] } : MessageCreate), none)

/-! ## The frame and its registry (builder.go) -/

/-- A Go `map[string]V`: `none` is the nil map, otherwise the entries, one
for each key. -/
abbrev GoMap (V : Type) := Option (List (String × V))

/-- The assignment `m[k] = v` on the entries of a map. -/
def mapAssign {V : Type} (entries : List (String × V)) (k : String) (v : V) :
    List (String × V) :=
  match entries with
  | [] => [(k, v)]
  | (k', v') :: rest =>
    if k' = k then (k, v) :: rest else (k', v') :: mapAssign rest k v

/-- The lookup `v, ok := m[k]`: `none` when `ok` is false. -/
def mapIndex {V : Type} (m : GoMap V) (k : String) : Option V :=
  match m with
  | none => none
  | some entries => (entries.find? fun e => e.1 = k).map (·.2)

/-- The keys of a map. -/
def mapKeys {V : Type} (m : GoMap V) : List String :=
  match m with
  | none => []
  | some entries => entries.map (·.1)

/-- The lookup `m[k]` of a map of handlers: nil when the key is absent. -/
def handlerAt {M : Message} (m : GoMap (CommandHandler M)) (k : String) : CommandHandler M :=
  match mapIndex m k with
  | some fn => fn
  | none => none

/-- The type `Frame`, with the fields the dispatch core uses. -/
structure Frame where
  Commands : List ApplicationCommandCreate
  globalCtx : Context
  commandHandlers : GoMap (CommandHandler .MessageCreate)
  deferredCommandHandlers : GoMap (CommandHandler .MessageUpdate)

/-- The body of the loop of `AttachHandlers`: the type switch on the handler
and the assignment into the map of its type, made first when it is nil. -/
def Frame.attach (M : Message) (frame : Frame) (path : String) (handler : CommandHandler M) :
    Frame :=
  match M, handler with
  | .MessageCreate, fn =>
    { frame with commandHandlers := some (mapAssign (frame.commandHandlers.getD []) path fn) }
  | .MessageUpdate, fn =>
    { frame with
      deferredCommandHandlers := some (mapAssign (frame.deferredCommandHandlers.getD []) path fn) }

/-- The function `AttachHandlers[C, M]`; the frame it returns is the frame
the Go function leaves behind its pointer. -/
def AttachHandlers {C : Command} {M : Message} (frame : Frame)
    (refs : List (SlashCommandHandlerRef C (CommandHandler M))) : Frame :=
  (findCommandPaths frame.Commands refs).foldl
    (fun frame pair => frame.attach M pair.1 pair.2) frame

/-- The second half of `Frame.slashCommandEventListener`, from the lookup in
the deferred map on: the selection of the handler and its execution under
its deadline. -/
def Frame.dispatch (f : Frame) (event : ApplicationCommandInteractionCreate)
    (logger : Logger) : Run :=
  let command := event.CommandPath
  match mapIndex f.deferredCommandHandlers command with
  | some (some handler) =>
    executeHandler .MessageUpdate (.WithTimeout f.globalCtx (15 * Minute)) handler event logger
  | _ =>
    match or [handlerAt f.commandHandlers command, handlerAt f.commandHandlers "/help",
        some commandNotFound] with
    | some handler =>
      executeHandler .MessageCreate (.WithTimeout f.globalCtx (3 * Second)) handler event logger
    | none => { calls := [], effects := [], panicked := false }

/-- The first half of `Frame.slashCommandEventListener`: the logger, with the
guild identifier when debug logging is enabled; `none` is the panic of
dereferencing an absent guild identifier. -/
def listenerLogger (debugEnabled : Bool) (event : ApplicationCommandInteractionCreate) :
    Option Logger :=
  let logger : Logger := [LogAttr.String "command" event.CommandPath]
  if debugEnabled then
    match event.GuildID with
    | some guild => some (logger ++ [LogAttr.ID "guild" guild])
    | none => none
  else some logger

/-- The method `Frame.slashCommandEventListener`.  `debugEnabled` is the
answer of `logger.Enabled(f.globalCtx, slog.LevelDebug)`. -/
def Frame.slashCommandEventListener (f : Frame) (debugEnabled : Bool)
    (event : ApplicationCommandInteractionCreate) : Run :=
  match listenerLogger debugEnabled event with
  | none => { calls := [], effects := [], panicked := true }
  | some logger => f.dispatch event logger

/-! ## Values of the tests (frame_test.go, errors_test.go) -/

/-- The function `exampleHandler[M]`: the zero message and no error. -/
def exampleHandler (M : Message) : HandlerFunc M :=
  fun _ctx _event _logger =>
    match M with
    | .MessageCreate => (({ Content := "", Embeds := [] } : MessageCreate), none)
    | .MessageUpdate => (({ Content := none, Embeds := none } : MessageUpdate), none)

/-- A slash command with a name and options, its other fields zero. -/
def slashCommand (name : String) (options : List ApplicationCommandOption) :
    SlashCommandCreate :=
  { Name := name, Description := "", Options := options }

/-- A sub-command with a name, its other fields zero. -/
def subCommand (name : String) : ApplicationCommandOptionSubCommand :=
  { Name := name, Description := "", Options := [] }

/-- A frame with the given commands and nothing attached. -/
def newFrame (commands : List ApplicationCommandCreate) : Frame :=
  { Commands := commands, globalCtx := .Background,
    commandHandlers := none, deferredCommandHandlers := none }

/-- The commands of the test "nested handlers within group". -/
def groupCommands : List ApplicationCommandCreate :=
  [.Slash (slashCommand "top"
    [.SubCommandGroup { Name := "middle", Description := "", Options := [subCommand "bottom"] }])]

/-- The commands of the test "nested handlers". -/
def nestedCommands : List ApplicationCommandCreate :=
  [.Slash (slashCommand "hello" [.SubCommand (subCommand "world")])]

/-- The commands of the test "multi handlers". -/
def multiCommands : List ApplicationCommandCreate :=
  [.Slash (slashCommand "test" []), .Slash (slashCommand "help" [])]

/-- An interaction event for a command path, from no guild, whose delivery
operations answer without error. -/
def eventFor (path : String) : ApplicationCommandInteractionCreate :=
  { CommandPath := path, GuildID := none, ApplicationID := 0, Token := "",
    CreateMessage := fun _ => none, UpdateInteractionResponse := fun _ _ _ => none }

/-- A frame whose two maps both hold a handler for "/test". -/
def bothFrame : Frame :=
  { Commands := [.Slash (slashCommand "test" [])], globalCtx := .Background,
    commandHandlers := some [("/test", some (exampleHandler .MessageCreate))],
    deferredCommandHandlers := some [("/test", some (exampleHandler .MessageUpdate))] }

/-- A frame whose only handler is an immediate handler for "/help". -/
def helpFrame : Frame :=
  { Commands := [.Slash (slashCommand "help" [])], globalCtx := .Background,
    commandHandlers := some [("/help", some (exampleHandler .MessageCreate))],
    deferredCommandHandlers := none }

/-! ## Notions the statements use -/

/-- Whether an effect is a call of one of the two delivery sinks. -/
def Effect.isDelivery : Effect → Bool
  | .CreateMessage _ => true
  | .UpdateInteractionResponse _ _ _ => true
  | .LogError _ => false

/-- The delivery calls among the effects of a run. -/
def Run.deliveries (r : Run) : List Effect :=
  r.effects.filter Effect.isDelivery

/-- A handler that returns the zero message and the given error. -/
def failingHandler (M : Message) (err : GoError) : HandlerFunc M :=
  fun ctx event logger => ((exampleHandler M ctx event logger).1, some err)

/-- A line as a sentence: its first character upper-cased and a period
appended. -/
def sentence (line : String) : String :=
  match line.data with
  | [] => "."
  | c :: rest => String.mk (c.toUpper :: rest) ++ "."

/-- A line of the kind the test of `Presentable` joins: no newline in it, and
an ASCII lower-case letter at its start. -/
def lowerCaseLine (line : String) : Bool :=
  !line.data.contains '\n' &&
    match line.data with
    | c :: _ => c.isLower
    | [] => false

/-- The characters that follow the first line when lines are joined by
newlines, each line given by the characters `f` makes of it. -/
def linesTail (f : String → List Char) : List String → List Char
  | [] => []
  | l :: ls => '\n' :: f l ++ linesTail f ls

/-- The map of a frame that holds the handlers of a mode. -/
def Frame.handlers (M : Message) (f : Frame) : GoMap (CommandHandler M) :=
  match M with
  | .MessageCreate => f.commandHandlers
  | .MessageUpdate => f.deferredCommandHandlers

/-- The nodes an option stands for in the declaration tree: itself and, for
a sub-command group, its sub-commands. -/
def optionNodes : ApplicationCommandOption → List Item
  | .SubCommand c => [.ApplicationCommandOptionSubCommand c]
  | .SubCommandGroup g =>
    .ApplicationCommandOptionSubCommandGroup g ::
      g.Options.map Item.ApplicationCommandOptionSubCommand
  | .Value v => [.ApplicationCommandOptionValue v]

/-- The nodes of a list of options. -/
def optionsNodes : List ApplicationCommandOption → List Item
  | [] => []
  | opt :: opts => optionNodes opt ++ optionsNodes opts

/-- The nodes of a top-level command: itself and, for a slash command, the
nodes of its options. -/
def commandNodes : ApplicationCommandCreate → List Item
  | .Slash c => .SlashCommandCreate c :: optionsNodes c.Options
  | .User n => [.UserCommandCreate n]
  | .Message n => [.MessageCommandCreate n]

/-- All nodes of a declaration tree: the top-level commands, the options of
the slash commands, and the sub-commands of the sub-command groups. -/
def treeNodes : List ApplicationCommandCreate → List Item
  | [] => []
  | command :: commands => commandNodes command ++ treeNodes commands

/-! ## The loop once more, and the nodes of a tree -/

/-- The loop `for len(stack) > 0` of `findCommandPaths` once more, recording
the entries it pops instead of the pairs it yields: the popped entries in
order, or `none` when the fuel ends before the stack does. -/
def pops : Nat → List stackEntry → Option (List stackEntry)
  | 0, stack => if stack = [] then some [] else none
  | fuel + 1, stack =>
    match stack.getLast? with
    | none => some []
    | some entry =>
      (pops fuel (stack.dropLast ++ pushChildren entry)).map (entry :: ·)

/-- The entries the loop of `findCommandPaths` pops for a list of commands,
in the order it pops them. -/
def popped (commands : List ApplicationCommandCreate) : List stackEntry :=
  let stack := initialStack commands
  (pops (stackWeight stack) stack).getD []

/-- The nodes below an option with their path steps, `steps` being the steps
of the command the option belongs to: the option itself and, for a
sub-command group, its sub-commands. -/
def optionEntries (steps : List String) : ApplicationCommandOption → List stackEntry
  | .SubCommand c =>
    [{ item := .ApplicationCommandOptionSubCommand c, pathSteps := steps ++ [c.Name] }]
  | .SubCommandGroup g =>
    { item := .ApplicationCommandOptionSubCommandGroup g, pathSteps := steps ++ [g.Name] } ::
      g.Options.map fun c =>
        { item := .ApplicationCommandOptionSubCommand c,
          pathSteps := steps ++ [g.Name] ++ [c.Name] }
  | .Value v =>
    [{ item := .ApplicationCommandOptionValue v, pathSteps := steps ++ [v.Name] }]

/-- The nodes of a list of options with their path steps. -/
def optionsEntries (steps : List String) : List ApplicationCommandOption → List stackEntry
  | [] => []
  | opt :: opts => optionEntries steps opt ++ optionsEntries steps opts

/-- The nodes of a top-level command with their path steps. -/
def commandEntries : ApplicationCommandCreate → List stackEntry
  | .Slash c =>
    { item := .SlashCommandCreate c, pathSteps := [c.Name] } :: optionsEntries [c.Name] c.Options
  | .User n => [{ item := .UserCommandCreate n, pathSteps := [n] }]
  | .Message n => [{ item := .MessageCommandCreate n, pathSteps := [n] }]

/-- Every node of a declaration tree with the names from its top-level
command down to it: the top-level commands, the options of the slash
commands, and the sub-commands of the sub-command groups. -/
def treeEntries : List ApplicationCommandCreate → List stackEntry
  | [] => []
  | command :: commands => commandEntries command ++ treeEntries commands

/-! ## More values for the statements -/

/-- A slash command with a name and a description and no options. -/
def describedCommand (name description : String) : SlashCommandCreate :=
  { Name := name, Description := description, Options := [] }

/-- Two top-level commands of the same name and different contents. -/
def sameNameCommands : List ApplicationCommandCreate :=
  [.Slash (describedCommand "test" "first"), .Slash (describedCommand "test" "second")]

/-- An interaction event for a command path whose guild identifier is
absent. -/
def guildlessEvent : ApplicationCommandInteractionCreate :=
  eventFor "/test"

/-! ## The shutdown gate (shutdown.go)

The gate is a sequential state machine: a registration, a call of a `stop`
function and the cancellation of a context are steps on its state, and a
callback runs to its end within the step that starts it. -/

/-- A callback registered with `context.AfterFunc` and not yet started or
stopped: the handle of its registration, the context it waits for, and the
label of the function `f` it will call. -/
structure AfterFuncEntry where
  handle : Nat
  ctx : Nat
  f : Nat
deriving DecidableEq, Repr

/-- The state of the shutdown gate (shutdown.go): the counter of the
`sync.WaitGroup` `shutdownWaiter`, the callbacks `context.AfterFunc` holds,
the contexts already cancelled, the labels of the functions that have run,
and the handle of the next registration.  Contexts and functions are given
by numbers. -/
structure ShutdownState where
  shutdownWaiter : Nat
  scheduled : List AfterFuncEntry
  done : List Nat
  ran : List Nat
  nextHandle : Nat
deriving DecidableEq, Repr

/-- The function `RegisterShutdownFunc`: `shutdownWaiter.Add(1)`, then
`context.AfterFunc(ctx, func() { f(); shutdownWaiter.Done() })`.  On a
context that is already done `AfterFunc` starts the function at once;
otherwise it holds it.  The handle stands for the `stop` function that is
returned. -/
def RegisterShutdownFunc (s : ShutdownState) (ctx f : Nat) : ShutdownState × Nat :=
  let s := { s with shutdownWaiter := s.shutdownWaiter + 1 }
  if s.done.contains ctx then
    ({ s with ran := s.ran ++ [f], shutdownWaiter := s.shutdownWaiter - 1,
              nextHandle := s.nextHandle + 1 }, s.nextHandle)
  else
    ({ s with scheduled := s.scheduled ++ [{ handle := s.nextHandle, ctx := ctx, f := f }],
              nextHandle := s.nextHandle + 1 }, s.nextHandle)

/-- A call of the `stop` function `context.AfterFunc` returned for a handle:
it takes the callback away when it is still held and tells so; it does
nothing else. -/
def stop (handle : Nat) (s : ShutdownState) : ShutdownState × Bool :=
  if s.scheduled.any (fun e => e.handle = handle) then
    ({ s with scheduled := s.scheduled.filter fun e => e.handle ≠ handle }, true)
  else (s, false)

/-- The cancellation of a context: every callback held for it runs, `f()`
then `shutdownWaiter.Done()`. -/
def cancel (ctx : Nat) (s : ShutdownState) : ShutdownState :=
  let started := s.scheduled.filter fun e => e.ctx = ctx
  { s with
    shutdownWaiter := s.shutdownWaiter - started.length
    scheduled := s.scheduled.filter fun e => e.ctx ≠ ctx
    done := ctx :: s.done
    ran := s.ran ++ started.map (·.f) }

/-- Whether `shutdownWaiter.Wait()` in `WaitUntilCleanShutdown` returns, so
that the function ends before its timeout: the counter is zero. -/
def waitReturns (s : ShutdownState) : Bool :=
  s.shutdownWaiter = 0

/-- The gate at program start. -/
def newGate : ShutdownState :=
  { shutdownWaiter := 0, scheduled := [], done := [], ran := [], nextHandle := 0 }

/-- A top-level command and the options directly under it, with their path
steps: the nodes the two cases of the type switch of `findCommandPaths`
reach in a declaration tree. -/
def directEntries : ApplicationCommandCreate → List stackEntry
  | .Slash c =>
    { item := .SlashCommandCreate c, pathSteps := [c.Name] } ::
      c.Options.map fun opt =>
        { item := opt.toItem, pathSteps := [c.Name] ++ [opt.OptionName] }
  | .User n => [{ item := .UserCommandCreate n, pathSteps := [n] }]
  | .Message n => [{ item := .MessageCommandCreate n, pathSteps := [n] }]

/-- The top-level commands of a tree and the options of its slash commands,
with their path steps. -/
def walkedEntries : List ApplicationCommandCreate → List stackEntry
  | [] => []
  | command :: commands => directEntries command ++ walkedEntries commands

/-- Two slash commands, a and b, each with the same sub-command s. -/
def twoParentCommands : List ApplicationCommandCreate :=
  [.Slash (slashCommand "a" [.SubCommand (subCommand "s")]),
   .Slash (slashCommand "b" [.SubCommand (subCommand "s")])]

/-- The entries in the order the loop pops them, for a stack whose pushed
entries push nothing themselves. -/
def visitOrder : List stackEntry → List stackEntry
  | [] => []
  | e :: rest => visitOrder rest ++ (e :: (pushChildren e).reverse)

/-- The pairs yielded for a list of popped entries. -/
def emitAll {C : Command} {H : Type} (refs : List (SlashCommandHandlerRef C H)) :
    List stackEntry → List (String × H)
  | [] => []
  | e :: es => yielded refs e ++ emitAll refs es

/-! ## Lemmas on the walker -/

theorem emitAll_append {C : Command} {H : Type} (refs : List (SlashCommandHandlerRef C H))
    (a b : List stackEntry) : emitAll refs (a ++ b) = emitAll refs a ++ emitAll refs b := by
  induction a with
  | nil => rfl
  | cons e es ih => simp [emitAll, ih]

theorem pushChildren_leaf (e c : stackEntry) (hc : c ∈ pushChildren e) : pushChildren c = [] := by
  unfold pushChildren at hc
  split at hc
  · obtain ⟨opt, -, rfl⟩ := List.mem_map.1 hc
    cases opt <;> rfl
  · obtain ⟨opt, -, rfl⟩ := List.mem_map.1 hc
    rfl
  · cases hc

theorem visitOrder_append (a b : List stackEntry) :
    visitOrder (a ++ b) = visitOrder b ++ visitOrder a := by
  induction a with
  | nil => simp [visitOrder]
  | cons e es ih => simp [visitOrder, ih]

theorem visitOrder_leaves (cs : List stackEntry) (h : ∀ c ∈ cs, pushChildren c = []) :
    visitOrder cs = cs.reverse := by
  induction cs with
  | nil => rfl
  | cons c cs ih =>
    have hc := h c (List.mem_cons_self _ _)
    have hcs := ih fun d hd => h d (List.mem_cons_of_mem _ hd)
    simp [visitOrder, hc, hcs]

theorem stackWeight_append (a b : List stackEntry) :
    stackWeight (a ++ b) = stackWeight a + stackWeight b := by
  simp [stackWeight]

theorem stackWeight_leaves (cs : List stackEntry) (h : ∀ c ∈ cs, pushChildren c = []) :
    stackWeight cs = cs.length := by
  induction cs with
  | nil => rfl
  | cons c cs ih =>
    have hc := h c (List.mem_cons_self _ _)
    have hcs := ih fun d hd => h d (List.mem_cons_of_mem _ hd)
    simp [stackWeight] at hcs ⊢
    simp [stackEntry.weight, hc, hcs]
    omega

theorem walk_eq {C : Command} {H : Type} (refs : List (SlashCommandHandlerRef C H)) :
    ∀ (fuel : Nat) (stack : List stackEntry), stackWeight stack ≤ fuel →
      walk refs fuel stack = some (emitAll refs (visitOrder stack)) := by
  intro fuel
  induction fuel with
  | zero =>
    intro stack h
    cases stack with
    | nil => rfl
    | cons e es =>
      simp [stackWeight, stackEntry.weight] at h
  | succ fuel ih =>
    intro stack h
    rcases List.eq_nil_or_concat stack with rfl | ⟨rest, e, rfl⟩ <;> simp only [List.concat_eq_append] at *
    · rfl
    · have hleaf := pushChildren_leaf e
      have hw : stackWeight (rest ++ pushChildren e) ≤ fuel := by
        rw [stackWeight_append] at h ⊢
        rw [stackWeight_leaves _ hleaf]
        simp [stackWeight, stackEntry.weight] at h
        simp [stackWeight]
        omega
      simp only [walk, List.getLast?_concat, List.dropLast_concat]
      rw [ih _ hw, visitOrder_append, visitOrder_leaves _ hleaf, visitOrder_append]
      simp [visitOrder, emitAll, emitAll_append]

theorem findCommandPaths_eq {C : Command} {H : Type} (commands : List ApplicationCommandCreate)
    (refs : List (SlashCommandHandlerRef C H)) :
    findCommandPaths commands refs = emitAll refs (visitOrder (initialStack commands)) := by
  simp [findCommandPaths, walk_eq refs _ _ (Nat.le_refl _)]

/-! ## Path construction -/

/-- C2 (code at the input of the test "nested handlers within group").  The
type switch of `findCommandPaths` has no case for
`discord.ApplicationCommandOptionSubCommandGroup`, the group type of a
declaration, so the sub-commands of a group are never pushed: for the tree
top -> middle (group) -> bottom and one reference to bottom the walker yields
no pair and `AttachHandlers` leaves the immediate map nil, where the test
expects the key "/top/middle/bottom".  For hello -> world (no group) the key
is "/hello/world", as the test expects. -/
theorem findCommandPaths_group_not_walked :
    findCommandPaths (C := .ApplicationCommandOptionSubCommand) groupCommands
        [{ Command := subCommand "bottom", Handler := some (exampleHandler .MessageCreate) }] = [] ∧
    mapKeys (AttachHandlers (C := .ApplicationCommandOptionSubCommand) (M := .MessageCreate)
        (newFrame groupCommands)
        [{ Command := subCommand "bottom", Handler := some (exampleHandler .MessageCreate) }]
      ).commandHandlers = [] ∧
    mapKeys (AttachHandlers (C := .ApplicationCommandOptionSubCommand) (M := .MessageCreate)
        (newFrame nestedCommands)
        [{ Command := subCommand "world", Handler := some (exampleHandler .MessageCreate) }]
      ).commandHandlers = ["/hello/world"] :=
  ⟨rfl, by decide, by decide⟩

/-! ## The dispatcher -/

theorem executeHandler_calls (M : Message) (ctx : Context) (handler : HandlerFunc M)
    (event : ApplicationCommandInteractionCreate) (logger : Logger) :
    (executeHandler M ctx handler event logger).calls =
      [{ M := M, handler := handler, ctx := ctx, logger := logger }] := by
  unfold executeHandler
  rcases handler ctx event logger with ⟨message, _ | err⟩
  · rfl
  · simp only
    split
    · rfl
    · split <;> rfl

/-- The selection half of `slashCommandEventListener`, for every frame
(registry state), event (command path) and logger.  (1) When the deferred map
holds a non-nil handler for the path, the one handler call made is that
handler, as a deferred handler, under a deadline of 15 minutes.  (2)
Otherwise the one handler call made is the first non-nil of the immediate
handler of the path, the immediate handler of "/help" and `commandNotFound`,
as an immediate handler, under a deadline of 3 seconds.  (3) So a path
without a handler of its own is served by the immediate "/help" handler when
there is one.  (4) The listener itself makes exactly the calls of this
selection once its logger is built. -/
theorem slashCommandEventListener_selection (f : Frame)
    (event : ApplicationCommandInteractionCreate) (logger : Logger) :
    (∀ h, mapIndex f.deferredCommandHandlers event.CommandPath = some (some h) →
      (f.dispatch event logger).calls =
        [{ M := .MessageUpdate, handler := h,
           ctx := .WithTimeout f.globalCtx (15 * 60 * 1000000000), logger := logger }]) ∧
    ((∀ h, mapIndex f.deferredCommandHandlers event.CommandPath ≠ some (some h)) →
      (f.dispatch event logger).calls =
        [{ M := .MessageCreate,
           handler :=
             match handlerAt f.commandHandlers event.CommandPath with
             | some own => own
             | none =>
               match handlerAt f.commandHandlers "/help" with
               | some help => help
               | none => commandNotFound,
           ctx := .WithTimeout f.globalCtx (3 * 1000000000), logger := logger }]) ∧
    (∀ help, (∀ h, mapIndex f.deferredCommandHandlers event.CommandPath ≠ some (some h)) →
      handlerAt f.commandHandlers event.CommandPath = none →
      handlerAt f.commandHandlers "/help" = some help →
      (f.dispatch event logger).calls =
        [{ M := .MessageCreate, handler := help,
           ctx := .WithTimeout f.globalCtx (3 * 1000000000), logger := logger }]) ∧
    (∀ debugEnabled, listenerLogger debugEnabled event = some logger →
      f.slashCommandEventListener debugEnabled event = f.dispatch event logger) := by
  have second : (∀ h, mapIndex f.deferredCommandHandlers event.CommandPath ≠ some (some h)) →
      (f.dispatch event logger).calls =
        [{ M := .MessageCreate,
           handler :=
             match handlerAt f.commandHandlers event.CommandPath with
             | some own => own
             | none =>
               match handlerAt f.commandHandlers "/help" with
               | some help => help
               | none => commandNotFound,
           ctx := .WithTimeout f.globalCtx (3 * 1000000000), logger := logger }] := by
    intro hd
    have hsel : ∀ own : HandlerFunc .MessageCreate,
        or [handlerAt f.commandHandlers event.CommandPath, handlerAt f.commandHandlers "/help",
          some commandNotFound] = some own →
        (f.dispatch event logger).calls =
          [{ M := .MessageCreate, handler := own,
             ctx := .WithTimeout f.globalCtx (3 * 1000000000), logger := logger }] := by
      intro own hown
      unfold Frame.dispatch
      cases hm : mapIndex f.deferredCommandHandlers event.CommandPath with
      | none => simp only [hown, executeHandler_calls, Second]
      | some fn =>
        cases fn with
        | none => simp only [hown, executeHandler_calls, Second]
        | some h => exact absurd hm (hd h)
    cases hown : handlerAt f.commandHandlers event.CommandPath with
    | some own => exact hsel own (by simp [or, hown])
    | none =>
      cases hhelp : handlerAt f.commandHandlers "/help" with
      | some help => exact hsel help (by simp [or, hown, hhelp])
      | none => exact hsel commandNotFound (by simp [or, hown, hhelp])
  refine ⟨?_, second, ?_, ?_⟩
  · intro h hd
    unfold Frame.dispatch
    simp only [hd, executeHandler_calls, Minute, Second]
  · intro help hd hown hhelp
    rw [second hd, hown, hhelp]
  · intro debugEnabled hl
    unfold Frame.slashCommandEventListener
    rw [hl]

/-- Instances of the selection: with handlers for "/test" in both maps the
deferred one is called under 15 minutes; with only an immediate "/help" handler an event for
"/unknown" is served by it under 3 seconds; and the listener, debug logging
off, does what the selection does. -/
theorem slashCommandEventListener_selection_witness :
    (bothFrame.dispatch (eventFor "/test") []).calls =
        [{ M := .MessageUpdate, handler := exampleHandler .MessageUpdate,
           ctx := .WithTimeout .Background (15 * 60 * 1000000000), logger := [] }] ∧
    (helpFrame.dispatch (eventFor "/unknown") []).calls =
        [{ M := .MessageCreate, handler := exampleHandler .MessageCreate,
           ctx := .WithTimeout .Background (3 * 1000000000), logger := [] }] ∧
    helpFrame.slashCommandEventListener false (eventFor "/unknown") =
        helpFrame.dispatch (eventFor "/unknown") [LogAttr.String "command" "/unknown"] :=
  ⟨(slashCommandEventListener_selection bothFrame (eventFor "/test") []).1
      (exampleHandler .MessageUpdate) rfl,
   (slashCommandEventListener_selection helpFrame (eventFor "/unknown") []).2.2.1
      (exampleHandler .MessageCreate) (fun _ h => nomatch h) rfl rfl,
   (slashCommandEventListener_selection helpFrame (eventFor "/unknown")
      [LogAttr.String "command" "/unknown"]).2.2.2 false rfl⟩

/-- C1 (code at a frame with handlers for "/test" in both maps, an event for
"/test" without a guild identifier, debug-level logging enabled; the defect
is the one of C13).  The selection is as the claim says: for every frame,
event and logger the one handler call of the selection half of the listener
is the non-nil deferred handler of the path under a deadline of 15 minutes,
and otherwise the first non-nil of the immediate handler of the path, the
immediate handler of "/help" and `commandNotFound` under a deadline of 3
seconds.  The listener runs exactly this selection when debug-level logging
is disabled and when the event has a guild identifier.  But for an event
without a guild identifier under debug-level logging it panics before the
selection: the deferred handler of "/test", non-nil in the map, is not
executed, and no handler is. -/
theorem slashCommandEventListener_selection_behind_logger :
    (∀ (f : Frame) (event : ApplicationCommandInteractionCreate) (logger : Logger),
      (f.dispatch event logger).calls =
        match mapIndex f.deferredCommandHandlers event.CommandPath with
        | some (some deferred) =>
          [{ M := .MessageUpdate, handler := deferred,
             ctx := .WithTimeout f.globalCtx (15 * 60 * 1000000000), logger := logger }]
        | _ =>
          [{ M := .MessageCreate,
             handler :=
               match handlerAt f.commandHandlers event.CommandPath with
               | some own => own
               | none =>
                 match handlerAt f.commandHandlers "/help" with
                 | some help => help
                 | none => commandNotFound,
             ctx := .WithTimeout f.globalCtx (3 * 1000000000), logger := logger }]) ∧
    (∀ (f : Frame) (event : ApplicationCommandInteractionCreate),
      f.slashCommandEventListener false event =
        f.dispatch event [LogAttr.String "command" event.CommandPath]) ∧
    (∀ (f : Frame) (event : ApplicationCommandInteractionCreate) (guild : Nat),
      f.slashCommandEventListener true { event with GuildID := some guild } =
        f.dispatch { event with GuildID := some guild }
          [LogAttr.String "command" event.CommandPath, LogAttr.ID "guild" guild]) ∧
    (mapIndex bothFrame.deferredCommandHandlers (eventFor "/test").CommandPath =
        some (some (exampleHandler .MessageUpdate)) ∧
     (eventFor "/test").GuildID = none ∧
     (bothFrame.slashCommandEventListener true (eventFor "/test")).calls = [] ∧
     (bothFrame.slashCommandEventListener true (eventFor "/test")).effects = [] ∧
     (bothFrame.slashCommandEventListener true (eventFor "/test")).panicked = true ∧
     (bothFrame.slashCommandEventListener false (eventFor "/test")).calls =
       [{ M := .MessageUpdate, handler := exampleHandler .MessageUpdate,
          ctx := .WithTimeout .Background (15 * 60 * 1000000000),
          logger := [LogAttr.String "command" "/test"] }]) := by
  refine ⟨?_, fun _ _ => rfl, fun _ _ _ => rfl, ⟨rfl, rfl, rfl, rfl, rfl, rfl⟩⟩
  intro f event logger
  have hsel := slashCommandEventListener_selection f event logger
  cases hm : mapIndex f.deferredCommandHandlers event.CommandPath with
  | none => exact hsel.2.1 (by intro h; rw [hm]; exact nofun)
  | some fn =>
    cases fn with
    | none => exact hsel.2.1 (by intro h; rw [hm]; exact fun e => nomatch e)
    | some h => exact hsel.1 h hm

/-- C3 (code at the path "/foo/bar").  `commandNotFound` returns no error
and a message whose content is the misspelt text "Unknown or unimplmented
command: " followed by the path in backquotes, its segments joined by
spaces: for "/foo/bar" the content is not the text of the specification,
"Unknown or unimplemented command: `/foo bar`.". -/
theorem commandNotFound_content :
    (∀ (ctx : Context) (event : ApplicationCommandInteractionCreate) (logger : Logger),
      (commandNotFound ctx event logger).2 = none ∧
      (commandNotFound ctx event logger).1.Embeds = [] ∧
      (commandNotFound ctx event logger).1.Content =
        "Unknown or unimplmented command: `/" ++
          stringsJoin (stringsSplit (stringsTrimLeft event.CommandPath "/") '/') " " ++ "`.") ∧
    (commandNotFound .Background (eventFor "/foo/bar") []).1.Content =
      "Unknown or unimplmented command: `/foo bar`." ∧
    (commandNotFound .Background (eventFor "/foo/bar") []).1.Content ≠
      "Unknown or unimplemented command: `/foo bar`." :=
  ⟨fun _ _ _ => ⟨rfl, rfl, rfl⟩, by decide, by decide⟩

/-! ## Result handling -/

theorem deliver_create (event : ApplicationCommandInteractionCreate) (m : MessageCreate) :
    (deliver .MessageCreate event m).filter Effect.isDelivery = [Effect.CreateMessage m] := by
  cases h : event.CreateMessage m <;> simp [deliver, h, Effect.isDelivery]

theorem deliver_update (event : ApplicationCommandInteractionCreate) (m : MessageUpdate) :
    (deliver .MessageUpdate event m).filter Effect.isDelivery =
      [Effect.UpdateInteractionResponse event.ApplicationID event.Token m] := by
  cases h : event.UpdateInteractionResponse event.ApplicationID event.Token m <;>
    simp [deliver, h, Effect.isDelivery]

theorem executeHandler_error (M : Message) (ctx : Context) (handler : HandlerFunc M)
    (event : ApplicationCommandInteractionCreate) (logger : Logger) (message : M.Payload)
    (err : GoError) (h : handler ctx event logger = (message, some err))
    (hd : errorsIsDeadlineExceeded err = false) :
    executeHandler M ctx handler event logger =
      match createError M err with
      | some rendered =>
        { calls := [{ M := M, handler := handler, ctx := ctx, logger := logger }],
          effects := deliver M event rendered, panicked := false }
      | none =>
        { calls := [{ M := M, handler := handler, ctx := ctx, logger := logger }],
          effects := [], panicked := true } := by
  unfold executeHandler
  rw [h]
  simp only [hd]
  rfl

mutual
theorem GoError.Error_of_not_bot :
    ∀ err : GoError, errorsAsError err = none → ∃ text, GoError.Error err = some text
  | .new text, _ => ⟨text, rfl⟩
  | .deadlineExceeded, _ => ⟨_, rfl⟩
  | .wrap text _, _ => ⟨text, rfl⟩
  | .join errs, h => by
    obtain ⟨texts, ht⟩ := GoError.ErrorAll_of_not_bot errs (by simpa [errorsAsError] using h)
    exact ⟨stringsJoin texts "\n", by simp [GoError.Error, ht]⟩
  | .bot _ _, h => by simp [errorsAsError] at h
theorem GoError.ErrorAll_of_not_bot :
    ∀ errs : List GoError, errorsAsErrorFirst errs = none →
      ∃ texts, GoError.ErrorAll errs = some texts
  | [], _ => ⟨[], rfl⟩
  | e :: es, h => by
    cases he : errorsAsError e with
    | some b => simp [errorsAsErrorFirst, he] at h
    | none =>
      obtain ⟨text, ht⟩ := GoError.Error_of_not_bot e he
      obtain ⟨texts, hts⟩ := GoError.ErrorAll_of_not_bot es (by simpa [errorsAsErrorFirst, he] using h)
      exact ⟨text :: texts, by simp [GoError.ErrorAll, ht, hts]⟩
end

theorem classAz_of_isLower (c : Char) (h : c.isLower = true) : classAz c = true := by
  simp only [Char.isLower, Bool.and_eq_true, decide_eq_true_eq, ge_iff_le] at h
  simp only [classAz, decide_eq_true_eq, Char.toNat]
  have h1 : (97 : UInt32).toNat ≤ c.val.toNat := h.1
  have h2 : c.val.toNat ≤ (122 : UInt32).toNat := h.2
  have e1 : (97 : UInt32).toNat = 97 := rfl
  have e2 : (122 : UInt32).toNat = 122 := rfl
  omega

theorem classWord_of_isLower (c : Char) (h : c.isLower = true) : classWord c = true := by
  simp [classWord, Char.isAlphanum, Char.isAlpha, h]

theorem replaceNewlineWord_append (repl : List Char → List Char) :
    ∀ (r tail : List Char), '\n' ∉ r →
      replaceNewlineWord repl (r ++ tail) = r ++ replaceNewlineWord repl tail
  | [], _, _ => rfl
  | x :: r, tail, h => by
    have hx : x ≠ '\n' := fun e => h (e ▸ List.mem_cons_self _ _)
    have hr : '\n' ∉ r := fun m => h (List.mem_cons_of_mem _ m)
    have ih := replaceNewlineWord_append repl r tail hr
    cases hrt : r ++ tail with
    | nil =>
      obtain ⟨rfl, rfl⟩ := List.append_eq_nil.1 hrt
      rfl
    | cons d rest =>
      rw [hrt] at ih
      simp only [List.cons_append, hrt, replaceNewlineWord, hx, decide_False, Bool.false_and,
        Bool.false_eq_true, if_false, ih]

theorem replaceNewlineWord_line (c : Char) (rest : List Char) (h : c.isLower = true) :
    replaceNewlineWord presentableReplace ('\n' :: c :: rest) =
      '.' :: '\n' :: c.toUpper :: replaceNewlineWord presentableReplace rest := by
  have hn : ('\n' : Char).isLower = false := by decide
  simp [replaceNewlineWord, classWord_of_isLower c h, presentableReplace, h, hn]

theorem stringsJoin_data (l : String) (ls : List String) :
    (stringsJoin (l :: ls) "\n").data = l.data ++ linesTail String.data ls := by
  induction ls generalizing l with
  | nil => simp [stringsJoin, linesTail]
  | cons m ms ih =>
    have e : ("\n" : String).data = ['\n'] := rfl
    simp [stringsJoin, linesTail, String.data_append, ih m, e]

theorem linesTail_map (g : String → String) (ls : List String) :
    linesTail String.data (ls.map g) = linesTail (fun l => (g l).data) ls := by
  induction ls with
  | nil => rfl
  | cons m ms ih => simp [linesTail, ih]

theorem sentence_data (l : String) (c : Char) (r : List Char) (h : l.data = c :: r) :
    (sentence l).data = c.toUpper :: r ++ ['.'] := by
  have e : (".": String).data = ['.'] := rfl
  simp [sentence, h, String.data_append, e]

theorem lowerCaseLine_data (l : String) (h : lowerCaseLine l = true) :
    '\n' ∉ l.data ∧ ∃ c rest, l.data = c :: rest ∧ c.isLower = true := by
  unfold lowerCaseLine at h
  cases hd : l.data with
  | nil => simp [hd] at h
  | cons c rest =>
    rw [hd] at h
    simp only [Bool.and_eq_true, Bool.not_eq_true'] at h
    refine ⟨?_, c, rest, rfl, h.2⟩
    intro hm
    have hc : (c :: rest).contains '\n' = true := List.elem_iff.2 hm
    rw [h.1] at hc
    cases hc

theorem replaceNewlineWord_lines :
    ∀ (more : List String) (r : List Char), '\n' ∉ r →
      (∀ l ∈ more, lowerCaseLine l = true) →
      replaceNewlineWord presentableReplace (r ++ linesTail String.data more) ++ ['.'] =
        r ++ ['.'] ++ linesTail (fun l => (sentence l).data) more
  | [], r, hr, _ => by
    have := replaceNewlineWord_append presentableReplace r [] hr
    simp only [List.append_nil, replaceNewlineWord] at this
    simp [linesTail, this]
  | l :: more, r, hr, h => by
    obtain ⟨hl, c, rest, hd, hc⟩ := lowerCaseLine_data l (h l (List.mem_cons_self _ _))
    have hrest : '\n' ∉ rest := fun m => hl (hd ▸ List.mem_cons_of_mem _ m)
    have ih := replaceNewlineWord_lines more rest hrest
      fun m hm => h m (List.mem_cons_of_mem _ hm)
    rw [replaceNewlineWord_append presentableReplace r _ hr]
    simp only [linesTail, hd, List.cons_append, replaceNewlineWord_line c _ hc,
      sentence_data l c rest hd, List.append_assoc]
    simp only [List.append_assoc] at ih
    simp [ih]

/-- C5.  `Presentable` on joined lower-case messages: for every non-empty
list of lines, each without a newline and each beginning with an ASCII
lower-case letter, and every `Error` whose display error has as its text the
lines joined by "\n", `Presentable` returns the lines, each with its first
letter upper-cased and a period appended, joined by "\n". -/
theorem Presentable_lower_case_lines (lines : List String) (e : Chassis.Error) (d : GoError)
    (hne : lines ≠ [])
    (hlines : ∀ l ∈ lines, lowerCaseLine l = true)
    (hd : e.Display = some d) (ht : d.Error = some (stringsJoin lines "\n")) :
    e.Presentable = some (stringsJoin (lines.map sentence) "\n") := by
  cases lines with
  | nil => exact absurd rfl hne
  | cons l more =>
    obtain ⟨hl, c, r, hdata, hc⟩ := lowerCaseLine_data l (hlines l (List.mem_cons_self _ _))
    have hr : '\n' ∉ r := fun m => hl (hdata ▸ List.mem_cons_of_mem _ m)
    have hmore := replaceNewlineWord_lines more r hr
      fun m hm => hlines m (List.mem_cons_of_mem _ hm)
    have hn : ('\n' : Char).isLower = false := by decide
    have e1 : (".": String).data = ['.'] := rfl
    simp only [Error.Presentable, hd, ht, Option.map_some', Option.some.injEq]
    apply String.ext
    rw [List.map_cons, stringsJoin_data (sentence l), linesTail_map, sentence_data l c r hdata,
      String.data_append, stringsJoin_data l, hdata, e1]
    simp only [multiLineErrorMatchReplaceAll, List.cons_append, classAz_of_isLower c hc,
      if_true, presentableReplace, hc, List.nil_append, List.append_nil, List.singleton_append]
    simp only [List.append_assoc] at hmore ⊢
    simp [hmore]

/-- Witness of C5: the two cases of the test of `Presentable`, "hello world"
and the join of "hello world" and "lorem ipsum". -/
theorem Presentable_lower_case_lines_witness :
    Error.Presentable { Display := some (.new "hello world"), Internal := none } =
      some "Hello world." ∧
    Error.Presentable
      { Display := some (.join [.new "hello world", .new "lorem ipsum"]), Internal := none } =
      some "Hello world.\nLorem ipsum." :=
  ⟨Presentable_lower_case_lines ["hello world"] _ (.new "hello world") (by decide)
      (by decide) rfl rfl,
   Presentable_lower_case_lines ["hello world", "lorem ipsum"] _
      (.join [.new "hello world", .new "lorem ipsum"]) (by decide) (by decide) rfl rfl⟩

/-- C6 (code at "Hello\nWorld" and "step\n2 failed").  The function literal
of `Presentable` gives no output for a matched character that is neither a
lower-case letter nor a newline, so an upper-case first letter and an
upper-case letter, digit or underscore after a newline are deleted:
"Hello\nWorld" becomes "ello.\norld.", not "Hello.\nWorld.", and
"step\n2 failed" becomes "Step.\n failed.", not "Step.\n2 failed.". -/
theorem Presentable_deletes_matched_characters :
    Error.Presentable { Display := some (.new "Hello\nWorld"), Internal := none } =
      some "ello.\norld." ∧
    Error.Presentable { Display := some (.new "step\n2 failed"), Internal := none } =
      some "Step.\n failed." ∧
    Error.Presentable { Display := some (.new "Hello\nWorld"), Internal := none } ≠
      some "Hello.\nWorld." ∧
    Error.Presentable { Display := some (.new "step\n2 failed"), Internal := none } ≠
      some "Step.\n2 failed." := by
  decide

/-! ## The registry -/

theorem foldl_attach_create_deferred (pairs : List (String × CommandHandler .MessageCreate)) :
    ∀ frame : Frame,
      (pairs.foldl (fun frame pair => frame.attach .MessageCreate pair.1 pair.2)
        frame).deferredCommandHandlers = frame.deferredCommandHandlers := by
  induction pairs with
  | nil => intro frame; rfl
  | cons pair pairs ih => intro frame; rw [List.foldl_cons, ih]; rfl

theorem foldl_attach_update_immediate (pairs : List (String × CommandHandler .MessageUpdate)) :
    ∀ frame : Frame,
      (pairs.foldl (fun frame pair => frame.attach .MessageUpdate pair.1 pair.2)
        frame).commandHandlers = frame.commandHandlers := by
  induction pairs with
  | nil => intro frame; rfl
  | cons pair pairs ih => intro frame; rw [List.foldl_cons, ih]; rfl

/-- C8.  Mode separation.  For every frame and every list of references,
`AttachHandlers` with immediate-mode references leaves the deferred map
exactly as it was, and with deferred-mode references leaves the immediate map
exactly as it was.  For the tree [test, help], an immediate handler attached
to test and then a deferred handler attached to help give the immediate keys
"/test" and the deferred keys "/help"; for the tree [test] with one immediate
reference the immediate keys are "/test" and the deferred map is still nil. -/
theorem AttachHandlers_mode_separation :
    (∀ (C : Command) (frame : Frame)
      (refs : List (SlashCommandHandlerRef C (CommandHandler .MessageCreate))),
      (AttachHandlers frame refs).deferredCommandHandlers = frame.deferredCommandHandlers) ∧
    (∀ (C : Command) (frame : Frame)
      (refs : List (SlashCommandHandlerRef C (CommandHandler .MessageUpdate))),
      (AttachHandlers frame refs).commandHandlers = frame.commandHandlers) ∧
    (mapKeys (AttachHandlers (C := .SlashCommandCreate) (M := .MessageUpdate)
        (AttachHandlers (C := .SlashCommandCreate) (M := .MessageCreate)
          (newFrame multiCommands)
          [{ Command := slashCommand "test" [],
             Handler := some (exampleHandler .MessageCreate) }])
        [{ Command := slashCommand "help" [],
           Handler := some (exampleHandler .MessageUpdate) }]).commandHandlers = ["/test"] ∧
     mapKeys (AttachHandlers (C := .SlashCommandCreate) (M := .MessageUpdate)
        (AttachHandlers (C := .SlashCommandCreate) (M := .MessageCreate)
          (newFrame multiCommands)
          [{ Command := slashCommand "test" [],
             Handler := some (exampleHandler .MessageCreate) }])
        [{ Command := slashCommand "help" [],
           Handler := some (exampleHandler .MessageUpdate) }]).deferredCommandHandlers =
       ["/help"]) ∧
    (mapKeys (AttachHandlers (C := .SlashCommandCreate) (M := .MessageCreate)
        (newFrame [.Slash (slashCommand "test" [])])
        [{ Command := slashCommand "test" [],
           Handler := some (exampleHandler .MessageCreate) }]).commandHandlers = ["/test"] ∧
     (AttachHandlers (C := .SlashCommandCreate) (M := .MessageCreate)
        (newFrame [.Slash (slashCommand "test" [])])
        [{ Command := slashCommand "test" [],
           Handler := some (exampleHandler .MessageCreate) }]).deferredCommandHandlers = none) :=
  ⟨fun _ frame refs => foldl_attach_create_deferred _ frame,
   fun _ frame refs => foldl_attach_update_immediate _ frame,
   ⟨by decide, by decide⟩, ⟨by decide, rfl⟩⟩

theorem yielded_eq_find {C : Command} {H : Type} (refs : List (SlashCommandHandlerRef C H))
    (entry : stackEntry) :
    yielded refs entry =
      match refs.find? (fun r => cmpEqual C r.Command entry.item) with
      | some r => [(entry.path, r.Handler)]
      | none => [] := by
  have key : ∀ rs : List (SlashCommandHandlerRef C H),
      (match slicesIndexFunc rs (fun r => cmpEqual C r.Command entry.item) with
        | some i => rs[i]?
        | none => none) = rs.find? (fun r => cmpEqual C r.Command entry.item) := by
    intro rs
    induction rs with
    | nil => rfl
    | cons r rs ih =>
      by_cases h : cmpEqual C r.Command entry.item = true
      · simp [slicesIndexFunc, h, List.find?]
      · simp only [slicesIndexFunc, h, List.find?, Bool.false_eq_true, if_false]
        rw [← ih]
        cases slicesIndexFunc rs (fun r => cmpEqual C r.Command entry.item) <;> simp
  unfold yielded
  rw [← key refs]
  cases slicesIndexFunc refs (fun r => cmpEqual C r.Command entry.item) with
  | none => rfl
  | some i => cases refs[i]? <;> rfl

theorem mapIndex_mapAssign {V : Type} (entries : List (String × V)) (k k' : String) (v : V) :
    mapIndex (some (mapAssign entries k v)) k' =
      if k' = k then some v else mapIndex (some entries) k' := by
  induction entries with
  | nil =>
    by_cases h : k' = k
    · simp [mapAssign, mapIndex, List.find?, h]
    · have h' : ¬ k = k' := fun e => h e.symm
      simp [mapAssign, mapIndex, List.find?, h, h']
  | cons e es ih =>
    obtain ⟨ke, ve⟩ := e
    simp only [mapIndex] at ih
    by_cases h1 : ke = k
    · subst h1
      by_cases h2 : k' = ke
      · simp [mapAssign, mapIndex, List.find?, h2]
      · have h2' : ¬ ke = k' := fun e => h2 e.symm
        simp [mapAssign, mapIndex, List.find?, h2, h2']
    · by_cases h2 : ke = k'
      · subst h2
        simp [mapAssign, mapIndex, List.find?, h1]
      · simp [mapAssign, mapIndex, List.find?, h1, h2, ih]

theorem handlers_attach (M : Message) (frame : Frame) (path : String)
    (handler : CommandHandler M) :
    (frame.attach M path handler).handlers M =
      some (mapAssign ((frame.handlers M).getD []) path handler) := by
  cases M <;> rfl

theorem mapIndex_getD {V : Type} (m : GoMap V) (k : String) :
    mapIndex (some (m.getD [])) k = mapIndex m k := by
  cases m <;> rfl

theorem mapIndex_attach (M : Message) (frame : Frame) (path p : String)
    (handler : CommandHandler M) :
    mapIndex ((frame.attach M path handler).handlers M) p =
      if p = path then some handler else mapIndex (frame.handlers M) p := by
  rw [handlers_attach, mapIndex_mapAssign, mapIndex_getD]

theorem mapIndex_foldl_attach (M : Message) (p : String) :
    ∀ (pairs : List (String × CommandHandler M)) (frame : Frame),
      mapIndex ((pairs.foldl (fun frame pair => frame.attach M pair.1 pair.2) frame).handlers M) p =
        match pairs.reverse.find? (fun pair => pair.1 = p) with
        | some pair => some pair.2
        | none => mapIndex (frame.handlers M) p := by
  intro pairs
  induction pairs with
  | nil => intro frame; rfl
  | cons pair pairs ih =>
    intro frame
    rw [List.foldl_cons, ih, List.reverse_cons, List.find?_append]
    cases h : pairs.reverse.find? (fun pair => decide (pair.1 = p)) with
    | some q => simp
    | none =>
      simp only [Option.none_or, mapIndex_attach]
      by_cases hp : pair.1 = p
      · simp [List.find?, hp]
      · have hp' : ¬ p = pair.1 := fun e => hp e.symm
        simp [List.find?, hp, hp']

theorem emitAll_mem {C : Command} {H : Type} (refs : List (SlashCommandHandlerRef C H))
    (entries : List stackEntry) (q : String × H) (hq : q ∈ emitAll refs entries) :
    ∃ e ∈ entries, ∃ r ∈ refs,
      cmpEqual C r.Command e.item = true ∧ q = (e.path, r.Handler) := by
  induction entries with
  | nil => cases hq
  | cons e es ih =>
    rw [emitAll, List.mem_append] at hq
    rcases hq with hq | hq
    · rw [yielded_eq_find] at hq
      cases hf : refs.find? (fun r => cmpEqual C r.Command e.item) with
      | none => rw [hf] at hq; cases hq
      | some r =>
        rw [hf] at hq
        have hr := List.find?_some hf
        have hm := List.mem_of_find?_eq_some hf
        exact ⟨e, List.mem_cons_self _ _, r, hm, hr, List.mem_singleton.1 hq⟩
    · obtain ⟨e', he', r, hr, hc, rfl⟩ := ih hq
      exact ⟨e', List.mem_cons_of_mem _ he', r, hr, hc, rfl⟩

theorem emitAll_congr {C : Command} {H : Type} (refs refs' : List (SlashCommandHandlerRef C H))
    (entries : List stackEntry)
    (h : ∀ e ∈ entries, refs.find? (fun r => cmpEqual C r.Command e.item) =
      refs'.find? (fun r => cmpEqual C r.Command e.item)) :
    emitAll refs entries = emitAll refs' entries := by
  induction entries with
  | nil => rfl
  | cons e es ih =>
    rw [emitAll, emitAll, yielded_eq_find, yielded_eq_find, h e (List.mem_cons_self _ _),
      ih fun e' he' => h e' (List.mem_cons_of_mem _ he')]

theorem AttachHandlers_Commands {C : Command} {M : Message} (frame : Frame)
    (refs : List (SlashCommandHandlerRef C (CommandHandler M))) :
    (AttachHandlers frame refs).Commands = frame.Commands := by
  unfold AttachHandlers
  generalize findCommandPaths frame.Commands refs = pairs
  induction pairs generalizing frame with
  | nil => rfl
  | cons pair pairs ih =>
    rw [List.foldl_cons, ih]
    cases M <;> rfl

theorem exampleHandler_ne_commandNotFound :
    exampleHandler .MessageCreate ≠ commandNotFound := by
  intro h
  have h2 : (exampleHandler .MessageCreate .Background (eventFor "/x") []).1 =
      (commandNotFound .Background (eventFor "/x") []).1 := by rw [h]
  have h3 : (({ Content := "", Embeds := [] } : MessageCreate)) =
      { Content := "Unknown or unimplmented command: `/x`.", Embeds := [] } := h2
  exact absurd h3 (by decide)

/-- C9, counterexample.  Two references with the same target and different
handlers are passed to one `AttachHandlers` call: both resolve to "/test",
and the entry for "/test" holds the handler of the first reference, not of
the one that came last. -/
theorem AttachHandlers_first_reference_used :
    mapIndex (AttachHandlers (C := .SlashCommandCreate) (M := .MessageCreate)
        (newFrame [.Slash (slashCommand "test" [])])
        [{ Command := slashCommand "test" [], Handler := some (exampleHandler .MessageCreate) },
         { Command := slashCommand "test" [], Handler := some commandNotFound }]
      ).commandHandlers "/test" = some (some (exampleHandler .MessageCreate)) ∧
    mapIndex (AttachHandlers (C := .SlashCommandCreate) (M := .MessageCreate)
        (newFrame [.Slash (slashCommand "test" [])])
        [{ Command := slashCommand "test" [], Handler := some (exampleHandler .MessageCreate) },
         { Command := slashCommand "test" [], Handler := some commandNotFound }]
      ).commandHandlers "/test" ≠ some (some commandNotFound) := by
  have h : mapIndex (AttachHandlers (C := .SlashCommandCreate) (M := .MessageCreate)
        (newFrame [.Slash (slashCommand "test" [])])
        [{ Command := slashCommand "test" [], Handler := some (exampleHandler .MessageCreate) },
         { Command := slashCommand "test" [], Handler := some commandNotFound }]
      ).commandHandlers "/test" = some (some (exampleHandler .MessageCreate)) := rfl
  refine ⟨h, ?_⟩
  rw [h]
  intro e
  exact exampleHandler_ne_commandNotFound (Option.some.inj (Option.some.inj e))

/-- C9, amended.  Last-write-wins between calls, first-reference-wins within
a call.  (1) After an `AttachHandlers` call the entry of a path in the map of
the mode is the handler of the last pair the call yielded for that path, and
the entry the map had before when the call yielded none.  (2) So when a later
call with one reference resolves to a path, whatever was attached before, the
entry for that path holds the handler of the later call.  (3) Within one
call, a reference whose target equals the target of an earlier reference of
the call is not used: the call does what it does without it. -/
theorem AttachHandlers_last_call_wins :
    (∀ (C : Command) (M : Message) (frame : Frame)
      (refs : List (SlashCommandHandlerRef C (CommandHandler M))) (p : String),
      mapIndex ((AttachHandlers frame refs).handlers M) p =
        match (findCommandPaths frame.Commands refs).reverse.find? (fun pair => pair.1 = p) with
        | some pair => some pair.2
        | none => mapIndex (frame.handlers M) p) ∧
    (∀ (C₁ C₂ : Command) (M : Message) (frame : Frame)
      (earlier : List (SlashCommandHandlerRef C₁ (CommandHandler M)))
      (later : SlashCommandHandlerRef C₂ (CommandHandler M)) (p : String),
      p ∈ (findCommandPaths frame.Commands [later]).map Prod.fst →
      mapIndex ((AttachHandlers (AttachHandlers frame earlier) [later]).handlers M) p =
        some later.Handler) ∧
    (∀ (C : Command) (M : Message) (frame : Frame)
      (pre mid post : List (SlashCommandHandlerRef C (CommandHandler M)))
      (first again : SlashCommandHandlerRef C (CommandHandler M)),
      again.Command = first.Command →
      AttachHandlers frame (pre ++ first :: (mid ++ again :: post)) =
        AttachHandlers frame (pre ++ first :: (mid ++ post))) := by
  refine ⟨?_, ?_, ?_⟩
  · intro C M frame refs p
    exact mapIndex_foldl_attach M p _ frame
  · intro C₁ C₂ M frame earlier later p hp
    have hpairs := mapIndex_foldl_attach M p
      (findCommandPaths (AttachHandlers frame earlier).Commands [later])
      (AttachHandlers frame earlier)
    unfold AttachHandlers at hpairs ⊢
    rw [hpairs]
    have hc := AttachHandlers_Commands frame earlier
    unfold AttachHandlers at hc
    rw [hc]
    cases hf : (findCommandPaths frame.Commands [later]).reverse.find?
        (fun pair => decide (pair.1 = p)) with
    | none =>
      obtain ⟨q, hq, rfl⟩ := List.mem_map.1 hp
      have := List.find?_eq_none.1 hf q (List.mem_reverse.2 hq)
      simp at this
    | some q =>
      have hq : q ∈ findCommandPaths frame.Commands [later] :=
        List.mem_reverse.1 (List.mem_of_find?_eq_some hf)
      rw [findCommandPaths_eq] at hq
      obtain ⟨e, -, r, hr, -, rfl⟩ := emitAll_mem _ _ _ hq
      rw [List.mem_singleton.1 hr]
  · intro C M frame pre mid post first again hsame
    unfold AttachHandlers
    have : findCommandPaths frame.Commands (pre ++ first :: (mid ++ again :: post)) =
        findCommandPaths frame.Commands (pre ++ first :: (mid ++ post)) := by
      rw [findCommandPaths_eq, findCommandPaths_eq]
      apply emitAll_congr
      intro e _
      simp only [List.find?_append, List.find?_cons, hsame]
      cases pre.find? (fun r => cmpEqual C r.Command e.item) <;>
        cases hfirst : cmpEqual C first.Command e.item <;>
        cases mid.find? (fun r => cmpEqual C r.Command e.item) <;> simp
    rw [this]

/-- Witness of C9 (amended): after an example handler was attached to test,
a later call attaching `commandNotFound` to test leaves `commandNotFound` at
"/test"; and a call with two references to test is the call with the first
of them. -/
theorem AttachHandlers_last_call_wins_witness :
    mapIndex ((AttachHandlers (C := .SlashCommandCreate) (M := .MessageCreate)
        (AttachHandlers (C := .SlashCommandCreate) (M := .MessageCreate)
          (newFrame [.Slash (slashCommand "test" [])])
          [{ Command := slashCommand "test" [],
             Handler := some (exampleHandler .MessageCreate) }])
        [{ Command := slashCommand "test" [], Handler := some commandNotFound }]
      ).handlers .MessageCreate) "/test" = some (some commandNotFound) ∧
    AttachHandlers (C := .SlashCommandCreate) (M := .MessageCreate)
        (newFrame [.Slash (slashCommand "test" [])])
        ([] ++ { Command := slashCommand "test" [],
                 Handler := some (exampleHandler .MessageCreate) } ::
          ([] ++ { Command := slashCommand "test" [], Handler := some commandNotFound } :: [])) =
      AttachHandlers (C := .SlashCommandCreate) (M := .MessageCreate)
        (newFrame [.Slash (slashCommand "test" [])])
        ([] ++ { Command := slashCommand "test" [],
                 Handler := some (exampleHandler .MessageCreate) } :: ([] ++ [])) :=
  ⟨AttachHandlers_last_call_wins.2.1 .SlashCommandCreate .SlashCommandCreate .MessageCreate
      (newFrame [.Slash (slashCommand "test" [])])
      [{ Command := slashCommand "test" [], Handler := some (exampleHandler .MessageCreate) }]
      { Command := slashCommand "test" [], Handler := some commandNotFound } "/test"
      (by decide),
   AttachHandlers_last_call_wins.2.2 .SlashCommandCreate .MessageCreate
      (newFrame [.Slash (slashCommand "test" [])]) [] [] []
      { Command := slashCommand "test" [], Handler := some (exampleHandler .MessageCreate) }
      { Command := slashCommand "test" [], Handler := some commandNotFound } rfl⟩

/-! ## Unmatched references -/

theorem toItem_mem_optionsNodes (opts : List ApplicationCommandOption)
    (opt : ApplicationCommandOption) (h : opt ∈ opts) : opt.toItem ∈ optionsNodes opts := by
  induction opts with
  | nil => cases h
  | cons o os ih =>
    rw [optionsNodes, List.mem_append]
    rcases List.mem_cons.1 h with rfl | h
    · left
      cases opt <;> simp [optionNodes, ApplicationCommandOption.toItem]
    · exact Or.inr (ih h)

theorem visitOrder_item_mem_treeNodes (commands : List ApplicationCommandCreate)
    (e : stackEntry) (h : e ∈ visitOrder (initialStack commands)) :
    e.item ∈ treeNodes commands := by
  induction commands with
  | nil => cases h
  | cons command commands ih =>
    simp only [initialStack, List.map_cons, visitOrder, List.mem_append, List.mem_cons,
      List.mem_reverse] at h
    rw [treeNodes, List.mem_append]
    rcases h with h | rfl | h
    · exact Or.inr (ih h)
    · left
      cases command <;> simp [commandNodes, ApplicationCommandCreate.toItem]
    · left
      cases command with
      | Slash c =>
        simp only [pushChildren, ApplicationCommandCreate.toItem, List.mem_map] at h
        obtain ⟨opt, hopt, rfl⟩ := h
        simp only [commandNodes, List.mem_cons]
        exact Or.inr (toItem_mem_optionsNodes _ _ hopt)
      | User n => simp [pushChildren, ApplicationCommandCreate.toItem] at h
      | Message n => simp [pushChildren, ApplicationCommandCreate.toItem] at h

theorem emitAll_eq_nil {C : Command} {H : Type} (refs : List (SlashCommandHandlerRef C H))
    (entries : List stackEntry)
    (h : ∀ e ∈ entries, ∀ r ∈ refs, cmpEqual C r.Command e.item = false) :
    emitAll refs entries = [] := by
  cases hq : emitAll refs entries with
  | nil => rfl
  | cons q qs =>
    obtain ⟨e, he, r, hr, hc, -⟩ := emitAll_mem refs entries q (hq ▸ List.mem_cons_self _ _)
    rw [h e he r hr] at hc
    cases hc

/-- Unmatched references where no comparison panics.  (1) For every
declaration tree and reference list, a reference whose target equals no node
of the tree contributes nothing: `findCommandPaths` yields the same sequence
with and without it.  (2) When no reference has a target equal to a node of
the tree, the sequence is empty and `AttachHandlers` returns the frame as it
was, both maps included.  (3) For the empty tree this holds for any
references. -/
theorem findCommandPaths_unmatched_dropped :
    (∀ (C : Command) (H : Type) (commands : List ApplicationCommandCreate)
      (pre post : List (SlashCommandHandlerRef C H)) (ref : SlashCommandHandlerRef C H),
      (∀ node ∈ treeNodes commands, C.toItem ref.Command ≠ node) →
      findCommandPaths commands (pre ++ ref :: post) = findCommandPaths commands (pre ++ post)) ∧
    (∀ (C : Command) (M : Message) (frame : Frame)
      (refs : List (SlashCommandHandlerRef C (CommandHandler M))),
      (∀ ref ∈ refs, ∀ node ∈ treeNodes frame.Commands, C.toItem ref.Command ≠ node) →
      findCommandPaths frame.Commands refs = [] ∧ AttachHandlers frame refs = frame) ∧
    (∀ (C : Command) (M : Message) (frame : Frame)
      (refs : List (SlashCommandHandlerRef C (CommandHandler M))),
      frame.Commands = [] →
      findCommandPaths frame.Commands refs = [] ∧ AttachHandlers frame refs = frame) := by
  have second : ∀ (C : Command) (M : Message) (frame : Frame)
      (refs : List (SlashCommandHandlerRef C (CommandHandler M))),
      (∀ ref ∈ refs, ∀ node ∈ treeNodes frame.Commands, C.toItem ref.Command ≠ node) →
      findCommandPaths frame.Commands refs = [] ∧ AttachHandlers frame refs = frame := by
    intro C M frame refs h
    have hnil : findCommandPaths frame.Commands refs = [] := by
      rw [findCommandPaths_eq]
      apply emitAll_eq_nil
      intro e he r hr
      have := h r hr e.item (visitOrder_item_mem_treeNodes _ e he)
      simp [cmpEqual, this]
    refine ⟨hnil, ?_⟩
    unfold AttachHandlers
    rw [hnil]
    rfl
  refine ⟨?_, second, ?_⟩
  · intro C H commands pre post ref h
    rw [findCommandPaths_eq, findCommandPaths_eq]
    apply emitAll_congr
    intro e he
    have hne := h e.item (visitOrder_item_mem_treeNodes _ e he)
    have hc : cmpEqual C ref.Command e.item = false := by simp [cmpEqual, hne]
    simp [List.find?_append, List.find?_cons, hc]
  · intro C M frame refs h
    apply second
    intro ref _ node hnode
    rw [h] at hnode
    cases hnode

/-- Instances on the tree [test]: with a reference to test and a
reference to a command absent from the tree, the absent one changes nothing;
a reference list with only the absent command yields nothing and leaves the
frame as it was; so does any reference on the empty tree. -/
theorem findCommandPaths_unmatched_dropped_witness :
    findCommandPaths (C := .SlashCommandCreate) [.Slash (slashCommand "test" [])]
        ([{ Command := slashCommand "test" [],
            Handler := some (exampleHandler .MessageCreate) }] ++
          { Command := slashCommand "absent" [],
            Handler := some (exampleHandler .MessageCreate) } :: []) =
      findCommandPaths (C := .SlashCommandCreate) [.Slash (slashCommand "test" [])]
        ([{ Command := slashCommand "test" [],
            Handler := some (exampleHandler .MessageCreate) }] ++ []) ∧
    (findCommandPaths (C := .SlashCommandCreate)
        (newFrame [.Slash (slashCommand "test" [])]).Commands
        [{ Command := slashCommand "absent" [],
           Handler := some (exampleHandler .MessageCreate) }] = [] ∧
      AttachHandlers (C := .SlashCommandCreate) (M := .MessageCreate)
        (newFrame [.Slash (slashCommand "test" [])])
        [{ Command := slashCommand "absent" [],
           Handler := some (exampleHandler .MessageCreate) }] =
        newFrame [.Slash (slashCommand "test" [])]) ∧
    (findCommandPaths (C := .SlashCommandCreate) (newFrame []).Commands
        [{ Command := slashCommand "test" [],
           Handler := some (exampleHandler .MessageUpdate) }] = [] ∧
      AttachHandlers (C := .SlashCommandCreate) (M := .MessageUpdate) (newFrame [])
        [{ Command := slashCommand "test" [],
           Handler := some (exampleHandler .MessageUpdate) }] = newFrame []) :=
  ⟨findCommandPaths_unmatched_dropped.1 .SlashCommandCreate _
      [.Slash (slashCommand "test" [])]
      [{ Command := slashCommand "test" [], Handler := some (exampleHandler .MessageCreate) }]
      []
      { Command := slashCommand "absent" [], Handler := some (exampleHandler .MessageCreate) }
      (by decide),
   findCommandPaths_unmatched_dropped.2.1 .SlashCommandCreate .MessageCreate
      (newFrame [.Slash (slashCommand "test" [])])
      [{ Command := slashCommand "absent" [], Handler := some (exampleHandler .MessageCreate) }]
      (by
        intro ref href
        rw [List.mem_singleton.1 href]
        decide),
   findCommandPaths_unmatched_dropped.2.2 .SlashCommandCreate .MessageUpdate (newFrame [])
      [{ Command := slashCommand "test" [], Handler := some (exampleHandler .MessageUpdate) }]
      rfl⟩

/-! ## The popped entries and the nodes of the tree -/

theorem pops_eq : ∀ (fuel : Nat) (stack : List stackEntry), stackWeight stack ≤ fuel →
    pops fuel stack = some (visitOrder stack) := by
  intro fuel
  induction fuel with
  | zero =>
    intro stack h
    cases stack with
    | nil => rfl
    | cons e es => simp [stackWeight, stackEntry.weight] at h
  | succ fuel ih =>
    intro stack h
    rcases List.eq_nil_or_concat stack with rfl | ⟨rest, e, rfl⟩ <;>
      simp only [List.concat_eq_append] at *
    · rfl
    · have hleaf := pushChildren_leaf e
      have hw : stackWeight (rest ++ pushChildren e) ≤ fuel := by
        rw [stackWeight_append] at h ⊢
        rw [stackWeight_leaves _ hleaf]
        simp [stackWeight, stackEntry.weight] at h
        simp [stackWeight]
        omega
      simp only [pops, List.getLast?_concat, List.dropLast_concat]
      rw [ih _ hw, visitOrder_append, visitOrder_leaves _ hleaf, visitOrder_append]
      simp [visitOrder]

theorem popped_eq (commands : List ApplicationCommandCreate) :
    popped commands = visitOrder (initialStack commands) := by
  simp [popped, pops_eq _ _ (Nat.le_refl _)]

theorem findCommandPaths_eq_popped {C : Command} {H : Type}
    (commands : List ApplicationCommandCreate) (refs : List (SlashCommandHandlerRef C H)) :
    findCommandPaths commands refs = emitAll refs (popped commands) := by
  rw [findCommandPaths_eq, popped_eq]

theorem toEntry_mem_optionsEntries (steps : List String) (opts : List ApplicationCommandOption)
    (opt : ApplicationCommandOption) (h : opt ∈ opts) :
    ({ item := opt.toItem, pathSteps := steps ++ [opt.OptionName] } : stackEntry) ∈
      optionsEntries steps opts := by
  induction opts with
  | nil => cases h
  | cons o os ih =>
    rw [optionsEntries, List.mem_append]
    rcases List.mem_cons.1 h with rfl | h
    · left
      cases opt <;>
        simp [optionEntries, ApplicationCommandOption.toItem,
          ApplicationCommandOption.OptionName]
    · exact Or.inr (ih h)

theorem visitOrder_mem_treeEntries (commands : List ApplicationCommandCreate)
    (e : stackEntry) (h : e ∈ visitOrder (initialStack commands)) :
    e ∈ treeEntries commands := by
  induction commands with
  | nil => cases h
  | cons command commands ih =>
    simp only [initialStack, List.map_cons, visitOrder, List.mem_append, List.mem_cons,
      List.mem_reverse] at h
    rw [treeEntries, List.mem_append]
    rcases h with h | rfl | h
    · exact Or.inr (ih h)
    · left
      cases command <;>
        simp [commandEntries, ApplicationCommandCreate.toItem,
          ApplicationCommandCreate.CommandName]
    · left
      cases command with
      | Slash c =>
        simp only [pushChildren, ApplicationCommandCreate.toItem, List.mem_map,
          ApplicationCommandCreate.CommandName] at h
        obtain ⟨opt, hopt, rfl⟩ := h
        simp only [commandEntries, List.mem_cons]
        exact Or.inr (toEntry_mem_optionsEntries _ _ _ hopt)
      | User n => simp [pushChildren, ApplicationCommandCreate.toItem] at h
      | Message n => simp [pushChildren, ApplicationCommandCreate.toItem] at h

/-! ## Registry keys and nodes -/

theorem mapIndex_ne_none_of_mem_mapKeys {V : Type} (m : GoMap V) (k : String)
    (h : k ∈ mapKeys m) : mapIndex m k ≠ none := by
  cases m with
  | none => cases h
  | some entries =>
    simp only [mapKeys, List.mem_map] at h
    obtain ⟨e, he, rfl⟩ := h
    simp only [mapIndex, ne_eq, Option.map_eq_none', List.find?_eq_none, not_forall]
    exact ⟨e, he, by simp⟩

theorem handlers_newFrame (M : Message) (commands : List ApplicationCommandCreate) :
    (newFrame commands).handlers M = none := by
  cases M <;> rfl

theorem key_is_popped_path {C : Command} {M : Message}
    (commands : List ApplicationCommandCreate)
    (refs : List (SlashCommandHandlerRef C (CommandHandler M))) (p : String)
    (h : p ∈ mapKeys ((AttachHandlers (newFrame commands) refs).handlers M)) :
    ∃ e ∈ popped commands, e.path = p ∧
      ∃ r ∈ refs, C.toItem r.Command = e.item := by
  have hne := mapIndex_ne_none_of_mem_mapKeys _ _ h
  have hfold := mapIndex_foldl_attach M p (findCommandPaths (newFrame commands).Commands refs)
    (newFrame commands)
  unfold AttachHandlers at hne
  rw [hfold] at hne
  cases hf : (findCommandPaths (newFrame commands).Commands refs).reverse.find?
      (fun pair => decide (pair.1 = p)) with
  | none =>
    rw [hf, handlers_newFrame] at hne
    exact absurd rfl hne
  | some q =>
    have hq : q ∈ findCommandPaths commands refs :=
      List.mem_reverse.1 (List.mem_of_find?_eq_some hf)
    have hp : q.1 = p := by simpa using List.find?_some hf
    rw [findCommandPaths_eq_popped] at hq
    obtain ⟨e, he, r, hr, hc, rfl⟩ := emitAll_mem _ _ _ hq
    exact ⟨e, he, hp, r, hr, by simpa [cmpEqual] using hc⟩

/-- C11, counterexample.  The tree holds two top-level commands named "test"
with different contents; a reference to the first is attached to an empty
frame.  The registry has the key "/test", and "/test" is the path of two
nodes of the tree, not of exactly one. -/
theorem registry_key_of_two_nodes :
    mapKeys (AttachHandlers (C := .SlashCommandCreate) (M := .MessageCreate)
        (newFrame sameNameCommands)
        [{ Command := describedCommand "test" "first",
           Handler := some (exampleHandler .MessageCreate) }]).commandHandlers = ["/test"] ∧
    (treeEntries sameNameCommands).countP (fun node => node.path = "/test") = 2 := by
  decide

/-- C11, amended.  For every declaration tree and reference list, every key
of the registry that `AttachHandlers` produces on an empty frame is the path
of a node of the tree: a node reachable from a top-level command by following
named children, whose declared value is the target of one of the references.
When no two nodes of the tree have the same path, it is the path of exactly
one node. -/
theorem registry_keys_are_node_paths (C : Command) (M : Message)
    (commands : List ApplicationCommandCreate)
    (refs : List (SlashCommandHandlerRef C (CommandHandler M))) (p : String)
    (hp : p ∈ mapKeys ((AttachHandlers (newFrame commands) refs).handlers M)) :
    (∃ node ∈ treeEntries commands, node.path = p ∧
      ∃ r ∈ refs, C.toItem r.Command = node.item) ∧
    (((treeEntries commands).map stackEntry.path).Nodup →
      (treeEntries commands).countP (fun node => node.path = p) = 1) := by
  obtain ⟨e, he, hpath, r, hr, hitem⟩ := key_is_popped_path commands refs p hp
  have hmem : e ∈ treeEntries commands :=
    visitOrder_mem_treeEntries commands e (popped_eq commands ▸ he)
  refine ⟨⟨e, hmem, hpath, r, hr, hitem⟩, ?_⟩
  intro hnodup
  have hcount : ((treeEntries commands).map stackEntry.path).count p = 1 :=
    List.count_eq_one_of_mem hnodup (List.mem_map.2 ⟨e, hmem, hpath⟩)
  rw [List.count, List.countP_map] at hcount
  rw [← hcount]
  apply List.countP_congr
  intro node _
  simp only [Function.comp, beq_iff_eq, decide_eq_true_eq]

/-- Witness of C11 (amended): in the tree hello -> world with a reference to
world, the key "/hello/world" is the path of a node that is the target of
the reference, and of exactly one node. -/
theorem registry_keys_are_node_paths_witness :
    (∃ node ∈ treeEntries nestedCommands, node.path = "/hello/world" ∧
      ∃ r ∈ [({ Command := subCommand "world",
                Handler := some (exampleHandler .MessageCreate) } :
              SlashCommandHandlerRef .ApplicationCommandOptionSubCommand
                (CommandHandler .MessageCreate))],
        Command.toItem .ApplicationCommandOptionSubCommand r.Command = node.item) ∧
    (treeEntries nestedCommands).countP (fun node => node.path = "/hello/world") = 1 :=
  ⟨(registry_keys_are_node_paths .ApplicationCommandOptionSubCommand .MessageCreate
      nestedCommands
      [{ Command := subCommand "world", Handler := some (exampleHandler .MessageCreate) }]
      "/hello/world" (by decide)).1,
   (registry_keys_are_node_paths .ApplicationCommandOptionSubCommand .MessageCreate
      nestedCommands
      [{ Command := subCommand "world", Handler := some (exampleHandler .MessageCreate) }]
      "/hello/world" (by decide)).2 (by decide)⟩

/-! ## One handler, one delivery -/

theorem executeHandler_deliveries_le (M : Message) (ctx : Context) (handler : HandlerFunc M)
    (event : ApplicationCommandInteractionCreate) (logger : Logger) :
    (executeHandler M ctx handler event logger).deliveries.length ≤ 1 := by
  have hdeliver : ∀ message : M.Payload,
      ((deliver M event message).filter Effect.isDelivery).length = 1 := by
    intro message
    cases M with
    | MessageCreate => rw [deliver_create]; rfl
    | MessageUpdate => rw [deliver_update]; rfl
  unfold executeHandler Run.deliveries
  rcases handler ctx event logger with ⟨message, _ | err⟩
  · simp only [hdeliver, Nat.le_refl]
  · simp only
    split
    · simp [Effect.isDelivery]
    · split
      · simp only [hdeliver, Nat.le_refl]
      · simp

theorem dispatch_eq_executeHandler (f : Frame) (event : ApplicationCommandInteractionCreate)
    (logger : Logger) :
    ∃ (M : Message) (ctx : Context) (handler : HandlerFunc M),
      f.dispatch event logger = executeHandler M ctx handler event logger := by
  have himmediate : ∃ handler : HandlerFunc .MessageCreate,
      Chassis.or [handlerAt f.commandHandlers event.CommandPath,
        handlerAt f.commandHandlers "/help", some commandNotFound] = some handler := by
    cases hown : handlerAt f.commandHandlers event.CommandPath <;>
      cases hhelp : handlerAt f.commandHandlers "/help" <;>
      simp [or, hown, hhelp]
  obtain ⟨handler, hor⟩ := himmediate
  cases hm : mapIndex f.deferredCommandHandlers event.CommandPath with
  | none =>
    exact ⟨.MessageCreate, .WithTimeout f.globalCtx (3 * Second), handler, by
      simp only [Frame.dispatch, hm, hor]⟩
  | some fn =>
    cases fn with
    | some h =>
      exact ⟨.MessageUpdate, .WithTimeout f.globalCtx (15 * Minute), h, by
        simp only [Frame.dispatch, hm]⟩
    | none =>
      exact ⟨.MessageCreate, .WithTimeout f.globalCtx (3 * Second), handler, by
        simp only [Frame.dispatch, hm, hor]⟩

theorem dispatch_calls_length (f : Frame) (event : ApplicationCommandInteractionCreate)
    (logger : Logger) : (f.dispatch event logger).calls.length = 1 := by
  obtain ⟨M, ctx, handler, h⟩ := dispatch_eq_executeHandler f event logger
  rw [h, executeHandler_calls]
  rfl

theorem dispatch_deliveries_le (f : Frame) (event : ApplicationCommandInteractionCreate)
    (logger : Logger) : (f.dispatch event logger).deliveries.length ≤ 1 := by
  obtain ⟨M, ctx, handler, h⟩ := dispatch_eq_executeHandler f event logger
  rw [h]
  exact executeHandler_deliveries_le M ctx handler event logger

/-- C12.  At most one handler, at most one delivery: for every frame
(registry state), every event (interaction path) and either answer of the
debug-level check, one run of `slashCommandEventListener` makes at most one
handler call and at most one call in total to the two delivery sinks,
whatever the handler returns. -/
theorem slashCommandEventListener_at_most_one (f : Frame) (debugEnabled : Bool)
    (event : ApplicationCommandInteractionCreate) :
    (f.slashCommandEventListener debugEnabled event).calls.length ≤ 1 ∧
    (f.slashCommandEventListener debugEnabled event).deliveries.length ≤ 1 := by
  unfold Frame.slashCommandEventListener
  cases listenerLogger debugEnabled event with
  | none => exact ⟨Nat.zero_le _, Nat.zero_le _⟩
  | some logger =>
    exact ⟨Nat.le_of_eq (dispatch_calls_length f event logger),
      dispatch_deliveries_le f event logger⟩

/-- C13 (code at an event without a guild identifier, debug-level logging
enabled).  The listener dereferences the absent guild identifier while it
builds its logger: the run ends in a panic, no handler is called and nothing
is delivered, whatever the frame holds.  With debug-level logging disabled
the same event is served. -/
theorem slashCommandEventListener_panics_without_guild :
    (∀ (f : Frame) (event : ApplicationCommandInteractionCreate),
      listenerLogger true { event with GuildID := none } = none ∧
      (f.slashCommandEventListener true { event with GuildID := none }).panicked = true ∧
      (f.slashCommandEventListener true { event with GuildID := none }).calls.length = 0 ∧
      (f.slashCommandEventListener true { event with GuildID := none }).effects = []) ∧
    (helpFrame.slashCommandEventListener true guildlessEvent).panicked = true ∧
    (helpFrame.slashCommandEventListener true guildlessEvent).calls.length = 0 ∧
    (helpFrame.slashCommandEventListener false guildlessEvent).panicked = false ∧
    (helpFrame.slashCommandEventListener false guildlessEvent).calls.length = 1 :=
  ⟨fun _ _ => ⟨rfl, rfl, rfl, rfl⟩, rfl, rfl, rfl, rfl⟩

/-- C18 (code at an event without a guild identifier, debug-level logging
enabled).  The selection itself is never empty: for every frame, event and
logger the candidates of `or` end in `commandNotFound`, `or` returns a
handler, and the selection half of the listener makes exactly one handler
call.  But the listener reaches the selection only when its logger is built:
for an event without a guild identifier under debug-level logging the run
panics before the selection and the interaction is dropped with no handler
called. -/
theorem slashCommandEventListener_selection_not_reached :
    (∀ (f : Frame) (event : ApplicationCommandInteractionCreate) (logger : Logger),
      Chassis.or [handlerAt f.commandHandlers event.CommandPath,
        handlerAt f.commandHandlers "/help", some commandNotFound] ≠ none ∧
      (f.dispatch event logger).calls.length = 1) ∧
    (∀ (f : Frame) (event : ApplicationCommandInteractionCreate),
      (f.slashCommandEventListener false event).calls.length = 1) ∧
    (helpFrame.slashCommandEventListener true guildlessEvent).calls = [] ∧
    (helpFrame.slashCommandEventListener true guildlessEvent).panicked = true := by
  refine ⟨?_, ?_, rfl, rfl⟩
  · intro f event logger
    refine ⟨?_, dispatch_calls_length f event logger⟩
    cases hown : handlerAt f.commandHandlers event.CommandPath <;>
      cases hhelp : handlerAt f.commandHandlers "/help" <;>
      simp [or, hown, hhelp]
  · intro f event
    simp [Frame.slashCommandEventListener, listenerLogger, dispatch_calls_length]

/-! ## Error identity and bot errors -/

/-- C15.  Error identity: for every bot `Error` with a present internal
error, `Error()` is exactly `Error()` of the internal error, so it returns
the text of the internal error whenever that has one, whatever the display
error is; the same holds for the `Error` seen as an `error` value.  For an
internal error "internal" it returns "internal" with any display error. -/
theorem Error_Error_is_internal :
    (∀ (e : Chassis.Error) (i : GoError), e.Internal = some i →
      e.Error = i.Error ∧ e.toGoError.Error = i.Error ∧
      ∀ text, i.Error = some text → e.Error = some text) ∧
    (∀ display : Option GoError,
      Error.Error { Display := display, Internal := some (.new "internal") } =
        some "internal") := by
  constructor
  · intro e i h
    have h1 : e.Error = i.Error := by simp [Error.Error, h]
    have h2 : e.toGoError.Error = i.Error := by simp [Error.toGoError, h, GoError.Error]
    exact ⟨h1, h2, fun text ht => h1.trans ht⟩
  · intro display
    rfl

/-- Witness of C15: the `Error` of the test, display "external" and internal
"internal", has the text "internal". -/
theorem Error_Error_is_internal_witness :
    Error.Error { Display := some (.new "external"), Internal := some (.new "internal") } =
      some "internal" :=
  (Error_Error_is_internal.1
    { Display := some (.new "external"), Internal := some (.new "internal") }
    (.new "internal") rfl).2.2 "internal" rfl

theorem timeout_log_not_in_deliver (M : Message) (event : ApplicationCommandInteractionCreate)
    (message : M.Payload) :
    Effect.LogError "Timeout exceeded while processing command" ∉ deliver M event message := by
  cases M with
  | MessageCreate =>
    cases h : event.CreateMessage message <;> simp [deliver, h]
  | MessageUpdate =>
    cases h : event.UpdateInteractionResponse event.ApplicationID event.Token message <;>
      simp [deliver, h]

/-- C20, counterexample.  A handler returns a bot `Error` whose internal
error is deadline-exceeded and whose display error is nil.  `executeHandler`
does not take the deadline-exceeded branch, but it delivers no payload
either: `createError` panics in `Presentable`. -/
theorem executeHandler_bot_error_without_display :
    errorsIsDeadlineExceeded (.bot none (some .deadlineExceeded)) = false ∧
    (executeHandler .MessageUpdate .Background
      (failingHandler .MessageUpdate (.bot none (some .deadlineExceeded)))
      (eventFor "/test") []).effects = [] ∧
    (executeHandler .MessageUpdate .Background
      (failingHandler .MessageUpdate (.bot none (some .deadlineExceeded)))
      (eventFor "/test") []).deliveries = [] ∧
    (executeHandler .MessageUpdate .Background
      (failingHandler .MessageUpdate (.bot none (some .deadlineExceeded)))
      (eventFor "/test") []).panicked = true :=
  ⟨rfl, rfl, rfl, rfl⟩

/-! ## The shutdown gate -/

/-- C14 (code at a fresh gate, one registration, detached before the
cancellation).  `RegisterShutdownFunc` adds one to the counter and the
`stop` function it returns is the one of `context.AfterFunc`, which never
touches the counter.  So for every gate state with no cancelled context a
registration followed by a successful detach leaves the counter one above
its value before the registration; on a fresh gate the counter is 1 and not
0, it stays 1 when the context is cancelled afterwards, the callback never
runs, and `Wait` does not return.  Without the detach the three callbacks of
the test run and the counter is back at 0. -/
theorem RegisterShutdownFunc_detach_keeps_counter :
    (∀ (s : ShutdownState) (handle : Nat),
      (stop handle s).1.shutdownWaiter = s.shutdownWaiter) ∧
    (∀ (waiter : Nat) (scheduled : List AfterFuncEntry) (ran : List Nat)
      (nextHandle ctx f : Nat),
      (stop
        (RegisterShutdownFunc
          { shutdownWaiter := waiter, scheduled := scheduled, done := [], ran := ran,
            nextHandle := nextHandle } ctx f).2
        (RegisterShutdownFunc
          { shutdownWaiter := waiter, scheduled := scheduled, done := [], ran := ran,
            nextHandle := nextHandle } ctx f).1).2 = true ∧
      (stop
        (RegisterShutdownFunc
          { shutdownWaiter := waiter, scheduled := scheduled, done := [], ran := ran,
            nextHandle := nextHandle } ctx f).2
        (RegisterShutdownFunc
          { shutdownWaiter := waiter, scheduled := scheduled, done := [], ran := ran,
            nextHandle := nextHandle } ctx f).1).1.shutdownWaiter = waiter + 1) ∧
    ((stop (RegisterShutdownFunc newGate 0 1).2 (RegisterShutdownFunc newGate 0 1).1).2 = true ∧
     (stop (RegisterShutdownFunc newGate 0 1).2
        (RegisterShutdownFunc newGate 0 1).1).1.shutdownWaiter = 1 ∧
     (cancel 0 (stop (RegisterShutdownFunc newGate 0 1).2
        (RegisterShutdownFunc newGate 0 1).1).1).shutdownWaiter = 1 ∧
     (cancel 0 (stop (RegisterShutdownFunc newGate 0 1).2
        (RegisterShutdownFunc newGate 0 1).1).1).ran = [] ∧
     waitReturns (cancel 0 (stop (RegisterShutdownFunc newGate 0 1).2
        (RegisterShutdownFunc newGate 0 1).1).1) = false) ∧
    ((cancel 0 (RegisterShutdownFunc (RegisterShutdownFunc
        (RegisterShutdownFunc newGate 0 1).1 0 2).1 0 3).1).ran = [1, 2, 3] ∧
     waitReturns (cancel 0 (RegisterShutdownFunc (RegisterShutdownFunc
        (RegisterShutdownFunc newGate 0 1).1 0 2).1 0 3).1) = true) := by
  refine ⟨?_, ?_, by decide, by decide⟩
  · intro s handle
    unfold stop
    split <;> rfl
  · intro waiter scheduled ran nextHandle ctx f
    simp [RegisterShutdownFunc, stop]

/-! ## What the loop pops -/

theorem visitOrder_perm_walkedEntries (commands : List ApplicationCommandCreate) :
    (visitOrder (initialStack commands)).Perm (walkedEntries commands) := by
  induction commands with
  | nil => exact List.Perm.refl _
  | cons command commands ih =>
    have hhead : ((({ item := command.toItem, pathSteps := [command.CommandName] } :
          stackEntry) ::
        (pushChildren { item := command.toItem,
                        pathSteps := [command.CommandName] }).reverse)).Perm
        (directEntries command) := by
      cases command with
      | Slash c =>
        simp only [directEntries, pushChildren, ApplicationCommandCreate.toItem,
          ApplicationCommandCreate.CommandName]
        exact List.Perm.cons _ (List.reverse_perm _)
      | User n => exact List.Perm.refl _
      | Message n => exact List.Perm.refl _
    simp only [initialStack, List.map_cons, visitOrder, walkedEntries]
    exact List.perm_append_comm.trans (List.Perm.append hhead ih)

theorem popped_perm_walkedEntries (commands : List ApplicationCommandCreate) :
    (popped commands).Perm (walkedEntries commands) := by
  rw [popped_eq]
  exact visitOrder_perm_walkedEntries commands

theorem optionsEntries_sublist (steps : List String) (opts : List ApplicationCommandOption) :
    (opts.map fun opt =>
      ({ item := opt.toItem, pathSteps := steps ++ [opt.OptionName] } : stackEntry)).Sublist
      (optionsEntries steps opts) := by
  induction opts with
  | nil => exact List.Sublist.refl _
  | cons opt opts ih =>
    have hopt : ([({ item := opt.toItem, pathSteps := steps ++ [opt.OptionName] } :
        stackEntry)]).Sublist (optionEntries steps opt) := by
      cases opt with
      | SubCommand c => exact List.Sublist.refl _
      | SubCommandGroup g =>
        simp only [optionEntries, ApplicationCommandOption.toItem,
          ApplicationCommandOption.OptionName]
        exact List.Sublist.cons₂ _ (List.nil_sublist _)
      | Value v => exact List.Sublist.refl _
    simp only [List.map_cons, optionsEntries]
    exact List.Sublist.append hopt ih

theorem walkedEntries_sublist_treeEntries (commands : List ApplicationCommandCreate) :
    (walkedEntries commands).Sublist (treeEntries commands) := by
  induction commands with
  | nil => exact List.Sublist.refl _
  | cons command commands ih =>
    have hhead : (directEntries command).Sublist (commandEntries command) := by
      cases command with
      | Slash c =>
        simp only [directEntries, commandEntries]
        exact List.Sublist.cons₂ _ (optionsEntries_sublist [c.Name] c.Options)
      | User n => exact List.Sublist.refl _
      | Message n => exact List.Sublist.refl _
    simp only [walkedEntries, treeEntries]
    exact List.Sublist.append hhead ih

theorem emitAll_length_le {C : Command} {H : Type} (refs : List (SlashCommandHandlerRef C H))
    (entries : List stackEntry) : (emitAll refs entries).length ≤ entries.length := by
  induction entries with
  | nil => exact Nat.le_refl _
  | cons e es ih =>
    have h1 : (yielded refs e).length ≤ 1 := by
      rw [yielded_eq_find]
      cases refs.find? (fun r => cmpEqual C r.Command e.item) <;> simp
    simp only [emitAll, List.length_append, List.length_cons]
    omega

theorem emitAll_paths {C : Command} {H : Type} (refs : List (SlashCommandHandlerRef C H))
    (entries : List stackEntry) :
    (emitAll refs entries).map Prod.fst =
      (entries.filter fun e => refs.any fun r => cmpEqual C r.Command e.item).map
        stackEntry.path := by
  induction entries with
  | nil => rfl
  | cons e es ih =>
    rw [emitAll, List.map_append, ih, yielded_eq_find, List.filter_cons]
    cases hf : refs.find? (fun r => cmpEqual C r.Command e.item) with
    | none =>
      have hany : (refs.any fun r => cmpEqual C r.Command e.item) = false := by
        rw [List.any_eq_false]
        intro r hr
        simpa using List.find?_eq_none.1 hf r hr
      simp [hany]
    | some r =>
      have hr := List.find?_some hf
      have hany : (refs.any fun r => cmpEqual C r.Command e.item) = true :=
        List.any_eq_true.2 ⟨r, List.mem_of_find?_eq_some hf, hr⟩
      simp [hany]

theorem emitAll_single_length {C : Command} {H : Type} (ref : SlashCommandHandlerRef C H)
    (entries : List stackEntry) :
    (emitAll [ref] entries).length =
      entries.countP fun e => decide (C.toItem ref.Command = e.item) := by
  induction entries with
  | nil => rfl
  | cons e es ih =>
    rw [emitAll, List.length_append, ih, yielded_eq_find, List.countP_cons]
    by_cases h : C.toItem ref.Command = e.item
    · simp [List.find?, cmpEqual, h, Nat.add_comm]
    · simp [List.find?, cmpEqual, h]

/-! ## One pair per popped node, termination -/

/-- C17 (code at the tree top -> middle (group) -> bottom with one reference
to bottom; the defect is the one of C2).  For every tree and single
reference the pairs `findCommandPaths` emits are one for each popped entry
whose value equals the target: their number is the number of matching nodes
among the top-level commands and the options of the slash commands, their
paths are the paths of those nodes in the order they are popped, and they are
never more than the matching nodes of the whole tree.  A sub-command under
two slash commands yields two paths.  But a matching sub-command of a group
is not counted, because it is never popped: in the group tree one node
equals the target and no pair is emitted. -/
theorem findCommandPaths_one_pair_per_popped_match :
    (∀ (C : Command) (H : Type) (commands : List ApplicationCommandCreate)
      (ref : SlashCommandHandlerRef C H),
      (findCommandPaths commands [ref]).length =
        (walkedEntries commands).countP (fun node => decide (C.toItem ref.Command = node.item)) ∧
      (findCommandPaths commands [ref]).map Prod.fst =
        ((popped commands).filter
          (fun node => decide (C.toItem ref.Command = node.item))).map stackEntry.path ∧
      (findCommandPaths commands [ref]).length ≤
        (treeEntries commands).countP (fun node => decide (C.toItem ref.Command = node.item))) ∧
    ((findCommandPaths (C := .ApplicationCommandOptionSubCommand) twoParentCommands
        [{ Command := subCommand "s", Handler := some (exampleHandler .MessageCreate) }]
      ).map Prod.fst = ["/b/s", "/a/s"] ∧
     (treeEntries twoParentCommands).countP
        (fun node => decide (Item.ApplicationCommandOptionSubCommand (subCommand "s") =
          node.item)) = 2) ∧
    ((findCommandPaths (C := .ApplicationCommandOptionSubCommand) groupCommands
        [{ Command := subCommand "bottom", Handler := some (exampleHandler .MessageCreate) }]
      ).length = 0 ∧
     (treeEntries groupCommands).countP
        (fun node => decide (Item.ApplicationCommandOptionSubCommand (subCommand "bottom") =
          node.item)) = 1) := by
  refine ⟨?_, ⟨by decide, by decide⟩, ⟨rfl, by decide⟩⟩
  intro C H commands ref
  have hlen : (findCommandPaths commands [ref]).length =
      (walkedEntries commands).countP
        (fun node => decide (C.toItem ref.Command = node.item)) := by
    rw [findCommandPaths_eq_popped, emitAll_single_length]
    exact (popped_perm_walkedEntries commands).countP_eq _
  refine ⟨hlen, ?_, ?_⟩
  · rw [findCommandPaths_eq_popped, emitAll_paths]
    congr 1
    apply List.filter_congr
    intro node _
    simp [cmpEqual]
  · rw [hlen]
    exact (walkedEntries_sublist_treeEntries commands).countP_le _

/-- C19 (code at the tree top -> middle (group) -> bottom; the defect is the
one of C2).  The loop of `findCommandPaths` terminates: with as many
iterations as the stack weighs, or more, it ends with the sequence of the
function, and the sequence is never longer than the tree has nodes.  It pops
every top-level command and every option of a slash command exactly once:
the popped entries are a permutation of these nodes, which are part of the
nodes of the tree.  But it pops no sub-command of a group: in the group tree
it pops top and middle, two of the three nodes, and never bottom. -/
theorem findCommandPaths_terminates_without_group_children :
    (∀ (C : Command) (H : Type) (commands : List ApplicationCommandCreate)
      (refs : List (SlashCommandHandlerRef C H)) (extra : Nat),
      walk refs (stackWeight (initialStack commands) + extra) (initialStack commands) =
        some (findCommandPaths commands refs) ∧
      pops (stackWeight (initialStack commands) + extra) (initialStack commands) =
        some (popped commands) ∧
      (findCommandPaths commands refs).length ≤ (treeEntries commands).length) ∧
    (∀ commands : List ApplicationCommandCreate,
      (popped commands).Perm (walkedEntries commands) ∧
      (walkedEntries commands).Sublist (treeEntries commands)) ∧
    (popped groupCommands =
        [{ item := .SlashCommandCreate (slashCommand "top"
             [.SubCommandGroup
               { Name := "middle", Description := "", Options := [subCommand "bottom"] }]),
           pathSteps := ["top"] },
         { item := .ApplicationCommandOptionSubCommandGroup
             { Name := "middle", Description := "", Options := [subCommand "bottom"] },
           pathSteps := ["top", "middle"] }] ∧
     (treeEntries groupCommands).length = 3 ∧
     ({ item := .ApplicationCommandOptionSubCommand (subCommand "bottom"),
        pathSteps := ["top", "middle", "bottom"] } : stackEntry) ∈ treeEntries groupCommands ∧
     ({ item := .ApplicationCommandOptionSubCommand (subCommand "bottom"),
        pathSteps := ["top", "middle", "bottom"] } : stackEntry) ∉ popped groupCommands) := by
  refine ⟨?_, ?_, ⟨by decide, by decide, by decide, by decide⟩⟩
  · intro C H commands refs extra
    refine ⟨?_, ?_, ?_⟩
    · rw [walk_eq refs _ _ (Nat.le_add_right _ _), findCommandPaths_eq]
    · rw [pops_eq _ _ (Nat.le_add_right _ _), popped_eq]
    · rw [findCommandPaths_eq_popped]
      exact Nat.le_trans (emitAll_length_le refs _)
        (Nat.le_trans (popped_perm_walkedEntries commands).length_eq.le
          (walkedEntries_sublist_treeEntries commands).length_le)
  · intro commands
    exact ⟨popped_perm_walkedEntries commands, walkedEntries_sublist_treeEntries commands⟩

/-! ## Reference order -/

theorem Presentable_eq_none_iff (e : Chassis.Error) :
    e.Presentable = none ↔
      e.Display = none ∨ ∃ d, e.Display = some d ∧ d.Error = none := by
  unfold Error.Presentable
  cases hd : e.Display with
  | none => simp
  | some d => simp

theorem createError_eq_none_iff (M : Message) (err : GoError) :
    createError M err = none ↔
      ∃ e, errorsAsError err = some e ∧ e.Presentable = none := by
  cases he : errorsAsError err with
  | none =>
    obtain ⟨text, ht⟩ := GoError.Error_of_not_bot err he
    cases M <;> simp [createError, he, ht]
  | some e =>
    cases M <;> simp [createError, he]

/-- C20, amended.  A bot `Error` is never swallowed as a timeout: for every
bot `Error` a handler returns directly, whatever its internal error is,
deadline-exceeded included, `errors.Is` does not find deadline-exceeded in
it and `executeHandler` does not log the timeout; and when `Presentable()`
returns on the `Error`, `executeHandler` delivers through the sink of the
mode the payload with the one embed whose description is that text.  When
`Presentable()` does not return on it, which is exactly when its display
error is nil or has no text, `executeHandler` panics in `createError` and
delivers nothing. -/
theorem executeHandler_bot_error_not_timeout (ctx : Context)
    (event : ApplicationCommandInteractionCreate) (logger : Logger)
    (display internal : Option GoError) :
    errorsIsDeadlineExceeded (.bot display internal) = false ∧
    (∀ (M : Message) (handler : HandlerFunc M) (message : M.Payload),
      handler ctx event logger = (message, some (.bot display internal)) →
      Effect.LogError "Timeout exceeded while processing command" ∉
        (executeHandler M ctx handler event logger).effects) ∧
    (∀ (handler : HandlerFunc .MessageCreate) (message : MessageCreate) (text : String),
      handler ctx event logger = (message, some (.bot display internal)) →
      Error.Presentable { Display := display, Internal := internal } = some text →
      (executeHandler .MessageCreate ctx handler event logger).deliveries =
        [Effect.CreateMessage
          { Content := "",
            Embeds := [{ Title := ":x: Something went wrong :x:", Description := text }] }]) ∧
    (∀ (handler : HandlerFunc .MessageUpdate) (message : MessageUpdate) (text : String),
      handler ctx event logger = (message, some (.bot display internal)) →
      Error.Presentable { Display := display, Internal := internal } = some text →
      (executeHandler .MessageUpdate ctx handler event logger).deliveries =
        [Effect.UpdateInteractionResponse event.ApplicationID event.Token
          { Content := none,
            Embeds := some [{ Title := ":x: Something went wrong :x:",
                              Description := text }] }]) ∧
    (∀ (M : Message) (handler : HandlerFunc M) (message : M.Payload),
      handler ctx event logger = (message, some (.bot display internal)) →
      Error.Presentable { Display := display, Internal := internal } = none →
      (executeHandler M ctx handler event logger).deliveries = [] ∧
      (executeHandler M ctx handler event logger).effects = [] ∧
      (executeHandler M ctx handler event logger).panicked = true) ∧
    (Error.Presentable { Display := display, Internal := internal } = none ↔
      display = none ∨ ∃ d, display = some d ∧ d.Error = none) := by
  have hnot : errorsIsDeadlineExceeded (.bot display internal) = false := rfl
  refine ⟨hnot, ?_, ?_, ?_, ?_, Presentable_eq_none_iff _⟩
  · intro M handler message h
    rw [executeHandler_error M ctx handler event logger message _ h hnot]
    cases createError M (.bot display internal) with
    | none => simp
    | some rendered => exact timeout_log_not_in_deliver M event rendered
  · intro handler message text h hp
    have hc : createError .MessageCreate (.bot display internal) =
        some { Content := "",
               Embeds := [{ Title := ":x: Something went wrong :x:", Description := text }] } := by
      simp [createError, errorsAsError, hp, errorEmbed]
    rw [executeHandler_error _ ctx handler event logger message _ h hnot, hc]
    exact deliver_create event _
  · intro handler message text h hp
    have hc : createError .MessageUpdate (.bot display internal) =
        some { Content := none,
               Embeds := some [{ Title := ":x: Something went wrong :x:",
                                 Description := text }] } := by
      simp [createError, errorsAsError, hp, errorEmbed]
    rw [executeHandler_error _ ctx handler event logger message _ h hnot, hc]
    exact deliver_update event _
  · intro M handler message h hp
    have hc : createError M (.bot display internal) = none :=
      (createError_eq_none_iff M _).2 ⟨_, rfl, hp⟩
    rw [executeHandler_error M ctx handler event logger message _ h hnot, hc]
    exact ⟨rfl, rfl, rfl⟩

/-- Witness of C20 (amended): a handler returns the bot `Error` with display
"hello world" and internal error deadline-exceeded; the timeout is not
logged and the payload with the description "Hello world." is delivered, in
both modes; a handler returns the bot `Error` whose display error has no
text and whose internal error is deadline-exceeded: nothing is delivered and
the run panics; and `Presentable()` does not return without a display
error. -/
theorem executeHandler_bot_error_not_timeout_witness :
    Effect.LogError "Timeout exceeded while processing command" ∉
      (executeHandler .MessageCreate .Background
        (failingHandler .MessageCreate
          (.bot (some (.new "hello world")) (some .deadlineExceeded)))
        (eventFor "/test") []).effects ∧
    (executeHandler .MessageCreate .Background
        (failingHandler .MessageCreate
          (.bot (some (.new "hello world")) (some .deadlineExceeded)))
        (eventFor "/test") []).deliveries =
      [Effect.CreateMessage
        { Content := "",
          Embeds := [{ Title := ":x: Something went wrong :x:",
                       Description := "Hello world." }] }] ∧
    (executeHandler .MessageUpdate .Background
        (failingHandler .MessageUpdate
          (.bot (some (.new "hello world")) (some .deadlineExceeded)))
        (eventFor "/test") []).deliveries =
      [Effect.UpdateInteractionResponse 0 ""
        { Content := none,
          Embeds := some [{ Title := ":x: Something went wrong :x:",
                            Description := "Hello world." }] }] ∧
    ((executeHandler .MessageCreate .Background
        (failingHandler .MessageCreate (.bot (some (.join [.bot none none])) (some .deadlineExceeded)))
        (eventFor "/test") []).deliveries = [] ∧
     (executeHandler .MessageCreate .Background
        (failingHandler .MessageCreate (.bot (some (.join [.bot none none])) (some .deadlineExceeded)))
        (eventFor "/test") []).effects = [] ∧
     (executeHandler .MessageCreate .Background
        (failingHandler .MessageCreate (.bot (some (.join [.bot none none])) (some .deadlineExceeded)))
        (eventFor "/test") []).panicked = true) ∧
    Error.Presentable { Display := none, Internal := some .deadlineExceeded } = none :=
  ⟨(executeHandler_bot_error_not_timeout .Background (eventFor "/test") []
      (some (.new "hello world")) (some .deadlineExceeded)).2.1 .MessageCreate
      (failingHandler .MessageCreate (.bot (some (.new "hello world")) (some .deadlineExceeded)))
      _ rfl,
   (executeHandler_bot_error_not_timeout .Background (eventFor "/test") []
      (some (.new "hello world")) (some .deadlineExceeded)).2.2.1
      (failingHandler .MessageCreate (.bot (some (.new "hello world")) (some .deadlineExceeded)))
      _ "Hello world." rfl (by decide),
   (executeHandler_bot_error_not_timeout .Background (eventFor "/test") []
      (some (.new "hello world")) (some .deadlineExceeded)).2.2.2.1
      (failingHandler .MessageUpdate (.bot (some (.new "hello world")) (some .deadlineExceeded)))
      _ "Hello world." rfl (by decide),
   (executeHandler_bot_error_not_timeout .Background (eventFor "/test") []
      (some (.join [.bot none none])) (some .deadlineExceeded)).2.2.2.2.1 .MessageCreate
      (failingHandler .MessageCreate
        (.bot (some (.join [.bot none none])) (some .deadlineExceeded)))
      _ rfl rfl,
   ((executeHandler_bot_error_not_timeout .Background (eventFor "/test") []
      none (some .deadlineExceeded)).2.2.2.2.2).2 (Or.inl rfl)⟩

/-! ## The walker with its panics -/

end Chassis
